import Mathlib

/-!
Shallow embedding of the embedded-term terminal emulator core
(src/cell.rs, src/color.rs, src/text_buffer_cache.rs, src/console.rs,
src/ansi.rs) together with theorems checking the natural-language
specification against it.

Conventions of the embedding:
  - Rust `usize` is `Nat`; a subtraction that can underflow (a panic in
    debug builds) is modelled by `usizeSub`, which returns `none` on
    underflow.  A `Vec` index out of bounds (always a panic) is likewise
    modelled by `Option`-returning access.  Every operation that can
    panic therefore returns `Option`, with `none` standing for a panic.
  - The inner renderer (`TextOnGraphic`, a `TextBuffer` whose `write`
    is total and whose `clear`/`new_line` fall back to the trait's
    defaults) is observed through a trace of the calls the cache makes
    to it: claims about forwarding only concern the arguments of those
    calls.
  - The vte byte parser is an external crate, not part of src/; it is
    modelled from the spec (see `VtParser` below).
-/

namespace EmbeddedTerm

/-- Checked `usize` subtraction: Rust debug builds panic on underflow. -/
def usizeSub (a b : Nat) : Option Nat :=
  if b ≤ a then some (a - b) else none

/-! ## Colors and cells (src/color.rs, src/cell.rs) -/

/-- The sixteen named ANSI colors of color.rs. -/
inductive NamedColor where
  | Black | Red | Green | Yellow | Blue | Magenta | Cyan | White
  | BrightBlack | BrightRed | BrightGreen | BrightYellow
  | BrightBlue | BrightMagenta | BrightCyan | BrightWhite
  deriving DecidableEq

/-- Color = Named | Spec(Rgb888) | Indexed(u8), from color.rs. -/
inductive Color where
  | Named (n : NamedColor)
  | Spec (r g b : Nat)
  | Indexed (i : Nat)
  deriving DecidableEq

/-- Flag bits from cell.rs (a u16 bitset). -/
def FlagINVERSE : Nat := 0x0001
def FlagBOLD : Nat := 0x0002
def FlagITALIC : Nat := 0x0004
def FlagUNDERLINE : Nat := 0x0008
def FlagDIM : Nat := 0x0080
def FlagHIDDEN : Nat := 0x0100
def FlagSTRIKEOUT : Nat := 0x0200

/-- Insert flag bits (Rust `insert` / `|=`). -/
def flagInsert (f m : Nat) : Nat := f ||| m

/-- Remove flag bits (Rust `remove`), within the 16-bit universe. -/
def flagRemove (f m : Nat) : Nat := f &&& (0xFFFF ^^^ m)

/-- A styled character cell, from cell.rs. -/
structure Cell where
  c : Char
  fg : Color
  bg : Color
  flags : Nat
  deriving DecidableEq

/-- Cell::default(): space on black background, bright-white foreground. -/
def Cell.default : Cell :=
  { c := ' '
    bg := Color.Named NamedColor.Black
    fg := Color.Named NamedColor.BrightWhite
    flags := 0 }

/-- Cell::bg(&self): the default cell with only `bg` taken from `self`
(cell.rs line 31); this is the erase cell of the spec. -/
def Cell.bgOnly (cell : Cell) : Cell :=
  { Cell.default with bg := cell.bg }

/-! ## The text buffer cache (src/text_buffer_cache.rs)

The cache owns a `Vec<Vec<Cell>>` physical store, a `row_offset`, and the
inner renderer.  The inner renderer is modelled by the trace of calls the
cache makes to it. -/

/-- One call forwarded to the inner `TextBuffer`. -/
inductive InnerOp where
  | write (row col : Nat) (cell : Cell)
  | clear (cell : Cell)
  deriving DecidableEq

/-- Set index `n` of a list, `none` if out of range (a Rust `Vec` index
panic). -/
def setAt : List α → Nat → α → Option (List α)
  | [], _, _ => none
  | _ :: xs, 0, a => some (a :: xs)
  | x :: xs, n + 1, a => (setAt xs n a).map (x :: ·)

/-- Set entry `(r, c)` of a matrix, `none` if either index is out of
range (`self.buf[row][col] = cell`). -/
def setCell (m : List (List Cell)) (r c : Nat) (cell : Cell) :
    Option (List (List Cell)) :=
  (m.get? r).bind fun rowl =>
    (setAt rowl c cell).bind fun rowl' => setAt m r rowl'

/-- TextBufferCache: physical store, rotation offset, and the inner
renderer observed as a call trace.  `width`/`height` are the inner
buffer's dimensions (the cache forwards `width()`/`height()` to it). -/
structure TextBufferCache where
  width : Nat
  height : Nat
  buf : List (List Cell)
  rowOffset : Nat
  trace : List InnerOp
  deriving DecidableEq

namespace TextBufferCache

/-- TextBufferCache::new(inner): a height × width grid of default cells,
offset 0. -/
def create (w h : Nat) : TextBufferCache :=
  { width := w
    height := h
    buf := List.replicate h (List.replicate w Cell.default)
    rowOffset := 0
    trace := [] }

/-- real_row: `(row_offset + row) % height`.  (Rust `%` by zero panics;
with `height = 0` the store is empty, so every subsequent index fails and
the surrounding operation returns `none` just the same.) -/
def realRow (s : TextBufferCache) (row : Nat) : Nat :=
  (s.rowOffset + row) % s.height

/-- The two statements `self.buf[row][col] = cell; self.inner.write(row,
col, cell)` executed at a physical row (used verbatim by `write` after
the `real_row` shadowing, and by `clear_line` on the given row). -/
def writePhys (s : TextBufferCache) (row col : Nat) (cell : Cell) :
    Option TextBufferCache :=
  (setCell s.buf row col cell).map fun b =>
    { s with buf := b, trace := s.trace ++ [InnerOp.write row col cell] }

/-- TextBufferCache::read. -/
def read (s : TextBufferCache) (row col : Nat) : Option Cell :=
  (s.buf.get? (s.realRow row)).bind fun rowl => rowl.get? col

/-- TextBufferCache::write: shadow `row` with `real_row(row)`, then write
store and inner. -/
def write (s : TextBufferCache) (row col : Nat) (cell : Cell) :
    Option TextBufferCache :=
  s.writePhys (s.realRow row) col cell

/-- TextBufferCache::clear_line (private): fill the given physical row in
both store and inner. -/
def clearLine (s : TextBufferCache) (row : Nat) (cell : Cell) :
    Option TextBufferCache :=
  (List.range s.width).foldlM (fun st col => st.writePhys row col cell) s

/-- TextBufferCache::new_line: blank the physical row at `row_offset`,
then advance the offset by one modulo height. -/
def newLine (s : TextBufferCache) (cell : Cell) : Option TextBufferCache :=
  (s.clearLine s.rowOffset cell).map fun s' =>
    { s' with rowOffset := (s'.rowOffset + 1) % s'.height }

/-- TextBufferCache::clear: reset `row_offset` and forward `clear` to the
inner renderer.  The physical store `buf` is not touched by the source. -/
def clear (s : TextBufferCache) (cell : Cell) : TextBufferCache :=
  { s with rowOffset := 0, trace := s.trace ++ [InnerOp.clear cell] }

end TextBufferCache

/-! ## Terminal state and handler operations (src/console.rs) -/

/-- Cursor position (0-based). -/
structure Cursor where
  row : Nat
  col : Nat
  deriving DecidableEq

/-- ConsoleInner: cursor, saved cursor, style template, buffer, auto-wrap
flag and report queue (front of the list is the queue front). -/
structure ConsoleInner where
  cursor : Cursor
  savedCursor : Cursor
  temp : Cell
  buf : TextBufferCache
  autoWrap : Bool
  report : List Nat
  deriving DecidableEq

/-- Line clear modes (src/ansi.rs). -/
inductive LineClearMode where
  | Right | Left | All
  deriving DecidableEq

/-- Screen clear modes (src/ansi.rs). -/
inductive ClearMode where
  | Below | Above | All | Saved
  deriving DecidableEq

namespace ConsoleInner

/-- Replace the buffer after a cache operation. -/
def withBuf (s : ConsoleInner) (b : TextBufferCache) : ConsoleInner :=
  { s with buf := b }

/-- Handler::goto: `row = min(row, height)`, `col = min(col, width)`. -/
def goto (s : ConsoleInner) (row col : Nat) : ConsoleInner :=
  { s with cursor := { row := min row s.buf.height, col := min col s.buf.width } }

/-- Handler::goto_line. -/
def gotoLine (s : ConsoleInner) (row : Nat) : ConsoleInner :=
  s.goto row s.cursor.col

/-- Handler::goto_col. -/
def gotoCol (s : ConsoleInner) (col : Nat) : ConsoleInner :=
  s.goto s.cursor.row col

/-- Handler::move_up (saturating subtraction is Nat subtraction). -/
def moveUp (s : ConsoleInner) (rows : Nat) : ConsoleInner :=
  s.goto (s.cursor.row - rows) s.cursor.col

/-- Handler::move_down: `min(row + n, height - 1)`; `height - 1`
underflows when height is zero. -/
def moveDown (s : ConsoleInner) (rows : Nat) : Option ConsoleInner :=
  (usizeSub s.buf.height 1).map fun hm1 =>
    s.goto (min (s.cursor.row + rows) hm1) s.cursor.col

/-- Handler::move_forward: `col = min(col + n, width - 1)`. -/
def moveForward (s : ConsoleInner) (cols : Nat) : Option ConsoleInner :=
  (usizeSub s.buf.width 1).map fun wm1 =>
    { s with cursor := { s.cursor with col := min (s.cursor.col + cols) wm1 } }

/-- Handler::move_backward (saturating). -/
def moveBackward (s : ConsoleInner) (cols : Nat) : ConsoleInner :=
  { s with cursor := { s.cursor with col := s.cursor.col - cols } }

/-- Handler::move_down_and_cr. -/
def moveDownAndCr (s : ConsoleInner) (rows : Nat) : Option ConsoleInner :=
  (usizeSub s.buf.height 1).map fun hm1 =>
    s.goto (min (s.cursor.row + rows) hm1) 0

/-- Handler::move_up_and_cr. -/
def moveUpAndCr (s : ConsoleInner) (rows : Nat) : ConsoleInner :=
  s.goto (s.cursor.row - rows) 0

/-- Handler::backspace. -/
def backspace (s : ConsoleInner) : ConsoleInner :=
  if 0 < s.cursor.col then
    { s with cursor := { s.cursor with col := s.cursor.col - 1 } }
  else s

/-- Handler::carriage_return. -/
def carriageReturn (s : ConsoleInner) : ConsoleInner :=
  { s with cursor := { s.cursor with col := 0 } }

/-- Handler::linefeed: `col = 0`; then either advance the row or scroll
via the cache's `new_line(self.temp)`. -/
def linefeed (s : ConsoleInner) : Option ConsoleInner :=
  let s := { s with cursor := { s.cursor with col := 0 } }
  (usizeSub s.buf.height 1).bind fun hm1 =>
    if s.cursor.row < hm1 then
      some { s with cursor := { s.cursor with row := s.cursor.row + 1 } }
    else
      (s.buf.newLine s.temp).map s.withBuf

/-- The tail of Handler::input: compose the template with the printed
character, write it at the cursor, and advance the column. -/
def inputWrite (s : ConsoleInner) (c : Char) : Option ConsoleInner :=
  let temp := { s.temp with c := c }
  (s.buf.write s.cursor.row s.cursor.col temp).map fun b =>
    { s with buf := b, cursor := { s.cursor with col := s.cursor.col + 1 } }

/-- Handler::input. -/
def input (s : ConsoleInner) (c : Char) : Option ConsoleInner :=
  if s.buf.width ≤ s.cursor.col then
    if s.autoWrap then
      (linefeed { s with cursor := { s.cursor with col := 0 } }).bind
        fun s' => inputWrite s' c
    else some s
  else inputWrite s c

/-- The inner `loop` of Handler::put_tab: write the background cell and
advance until the column hits the width or a multiple of 8.  The fuel
argument only bounds the recursion; `width + 1` fuel always suffices
because the column strictly increases and the loop stops at the width. -/
def tabLoop (bg : Cell) : Nat → ConsoleInner → Option ConsoleInner
  | 0, _ => none
  | fuel + 1, s =>
    (s.buf.write s.cursor.row s.cursor.col bg).bind fun b =>
      let s := { s with buf := b, cursor := { s.cursor with col := s.cursor.col + 1 } }
      if s.cursor.col = s.buf.width ∨ s.cursor.col % 8 = 0 then some s
      else tabLoop bg fuel s

/-- The outer `while` of Handler::put_tab, recursing on the remaining
count. -/
def tabGo (bg : Cell) : Nat → ConsoleInner → Option ConsoleInner
  | 0, s => some s
  | count + 1, s =>
    if s.cursor.col < s.buf.width then
      (tabLoop bg (s.buf.width + 1) s).bind (tabGo bg count)
    else some s

/-- Handler::put_tab. -/
def putTab (s : ConsoleInner) (count : Nat) : Option ConsoleInner :=
  tabGo s.temp.bgOnly count s

/-- Handler::erase_chars: fill `[col, min(col + count, width))` with the
erase cell. -/
def eraseChars (s : ConsoleInner) (count : Nat) : Option ConsoleInner :=
  let start := s.cursor.col
  let stop := min (start + count) s.buf.width
  let bg := s.temp.bgOnly
  (List.range' start (stop - start)).foldlM
    (fun st i => (st.buf.write st.cursor.row i bg).map st.withBuf) s

/-- Handler::delete_chars: `count = min(count, columns - col - 1)`, then
for each `i` in `[col + count, columns)` copy cell `i` to `i - count` and
blank cell `i`.  The subtraction `columns - col - 1` underflows (debug
panic) when the cursor column equals the width. -/
def deleteChars (s : ConsoleInner) (count : Nat) : Option ConsoleInner :=
  let columns := s.buf.width
  (usizeSub columns s.cursor.col).bind fun d =>
    (usizeSub d 1).bind fun cm =>
      let count := min count cm
      let row := s.cursor.row
      let start := s.cursor.col
      let stop := start + count
      let bg := s.temp.bgOnly
      (List.range' stop (columns - stop)).foldlM
        (fun st i =>
          (st.buf.read row i).bind fun cell =>
            (st.buf.write row (i - count) cell).bind fun b =>
              (TextBufferCache.write b row i bg).map st.withBuf)
        s

/-- Handler::save_cursor_position. -/
def saveCursorPosition (s : ConsoleInner) : ConsoleInner :=
  { s with savedCursor := s.cursor }

/-- Handler::restore_cursor_position. -/
def restoreCursorPosition (s : ConsoleInner) : ConsoleInner :=
  { s with cursor := s.savedCursor }

/-- Handler::clear_line (EL).  The Left arm iterates `0..=col`,
including the cursor column itself. -/
def clearLineMode (s : ConsoleInner) (mode : LineClearMode) :
    Option ConsoleInner :=
  let bg := s.temp.bgOnly
  match mode with
  | LineClearMode.Right =>
    (List.range' s.cursor.col (s.buf.width - s.cursor.col)).foldlM
      (fun st i => (st.buf.write st.cursor.row i bg).map st.withBuf) s
  | LineClearMode.Left =>
    (List.range (s.cursor.col + 1)).foldlM
      (fun st i => (st.buf.write st.cursor.row i bg).map st.withBuf) s
  | LineClearMode.All =>
    (List.range s.buf.width).foldlM
      (fun st i => (st.buf.write st.cursor.row i bg).map st.withBuf) s

/-- Handler::clear_screen (ED).  Note the Above arm iterates `0..col` on
the cursor row, excluding the cursor column. -/
def clearScreen (s : ConsoleInner) (mode : ClearMode) : Option ConsoleInner :=
  let bg := s.temp.bgOnly
  let row := s.cursor.row
  let col := s.cursor.col
  match mode with
  | ClearMode.Above =>
    ((List.range row).foldlM
        (fun (st : ConsoleInner) i =>
          (List.range st.buf.width).foldlM
            (fun st2 j => (st2.buf.write i j bg).map st2.withBuf) st)
        s).bind fun (st : ConsoleInner) =>
      (List.range col).foldlM
        (fun st2 j => (st2.buf.write row j bg).map st2.withBuf) st
  | ClearMode.Below =>
    ((List.range' col (s.buf.width - col)).foldlM
        (fun (st : ConsoleInner) j => (st.buf.write row j bg).map st.withBuf)
        s).bind
      fun (st : ConsoleInner) =>
      (List.range' (row + 1) (st.buf.height - (row + 1))).foldlM
        (fun (st2 : ConsoleInner) i =>
          (List.range st2.buf.width).foldlM
            (fun st3 j => (st3.buf.write i j bg).map st3.withBuf) st2)
        st
  | ClearMode.All =>
    some { (s.withBuf (s.buf.clear bg)) with cursor := { row := 0, col := 0 } }
  | ClearMode.Saved => some s

/-- Minimal decimal digits of `n`, as ASCII bytes (Rust
`format!("{}", n)`); structural fuel mirrors `Nat.toDigits`. -/
def decBytesCore : Nat → Nat → List Nat → List Nat
  | 0, _, acc => acc
  | fuel + 1, n, acc =>
    let acc := (48 + n % 10) :: acc
    if n < 10 then acc else decBytesCore fuel (n / 10) acc

/-- ASCII decimal encoding of a number. -/
def decBytes (n : Nat) : List Nat := decBytesCore (n + 1) n []

/-- Handler::device_status: DSR 5 enqueues `ESC [ 0 n`; DSR 6 enqueues
`ESC [ row+1 ; col+1 R`; other arguments are logged only. -/
def deviceStatus (s : ConsoleInner) (arg : Nat) : ConsoleInner :=
  if arg = 5 then
    { s with report := s.report ++ [0x1b, 0x5b, 0x30, 0x6e] }
  else if arg = 6 then
    { s with report :=
        s.report ++ [0x1b, 0x5b] ++ decBytes (s.cursor.row + 1) ++
          [0x3b] ++ decBytes (s.cursor.col + 1) ++ [0x52] }
  else s

end ConsoleInner

/-! ## Attributes, modes and CSI dispatch (src/ansi.rs) -/

/-- Terminal character attributes (src/ansi.rs `Attr`). -/
inductive Attr where
  | Reset | Bold | Dim | Italic | Underline | DoubleUnderline
  | BlinkSlow | BlinkFast | Reverse | Hidden | Strike
  | CancelBold | CancelBoldDim | CancelItalic | CancelUnderline
  | CancelBlink | CancelReverse | CancelHidden | CancelStrike
  | Foreground (c : Color)
  | Background (c : Color)
  deriving DecidableEq

/-- Terminal modes (src/ansi.rs `Mode`). -/
inductive Mode where
  | CursorKeys | ColumnMode | Insert | Origin | LineWrap | BlinkingCursor
  | LineFeedNewLine | ShowCursor | ReportMouseClicks | ReportCellMouseMotion
  | ReportAllMouseMotion | ReportFocusInOut | Utf8Mouse | SgrMouse
  | AlternateScroll | UrgencyHints | SwapScreenAndSetRestoreCursor
  | BracketedPaste
  deriving DecidableEq

/-- Mode::from_primitive: the intermediate distinguishes private (`?`)
from public modes. -/
def Mode.fromPrimitive (intermediate : Option Nat) (num : Nat) : Option Mode :=
  match intermediate with
  | some 0x3f =>
    match num with
    | 1 => some Mode.CursorKeys
    | 3 => some Mode.ColumnMode
    | 6 => some Mode.Origin
    | 7 => some Mode.LineWrap
    | 12 => some Mode.BlinkingCursor
    | 25 => some Mode.ShowCursor
    | 1000 => some Mode.ReportMouseClicks
    | 1002 => some Mode.ReportCellMouseMotion
    | 1003 => some Mode.ReportAllMouseMotion
    | 1004 => some Mode.ReportFocusInOut
    | 1005 => some Mode.Utf8Mouse
    | 1006 => some Mode.SgrMouse
    | 1007 => some Mode.AlternateScroll
    | 1042 => some Mode.UrgencyHints
    | 1049 => some Mode.SwapScreenAndSetRestoreCursor
    | 2004 => some Mode.BracketedPaste
    | _ => none
  | none =>
    match num with
    | 4 => some Mode.Insert
    | 20 => some Mode.LineFeedNewLine
    | _ => none
  | some _ => none

namespace ConsoleInner

/-- Handler::terminal_attribute: update the style template; blink and
double-underline attributes are logged and ignored. -/
def terminalAttribute (s : ConsoleInner) (attr : Attr) : ConsoleInner :=
  match attr with
  | Attr.Foreground color => { s with temp := { s.temp with fg := color } }
  | Attr.Background color => { s with temp := { s.temp with bg := color } }
  | Attr.Reset => { s with temp := Cell.default }
  | Attr.Reverse =>
    { s with temp := { s.temp with flags := flagInsert s.temp.flags FlagINVERSE } }
  | Attr.CancelReverse =>
    { s with temp := { s.temp with flags := flagRemove s.temp.flags FlagINVERSE } }
  | Attr.Bold =>
    { s with temp := { s.temp with flags := flagInsert s.temp.flags FlagBOLD } }
  | Attr.CancelBold =>
    { s with temp := { s.temp with flags := flagRemove s.temp.flags FlagBOLD } }
  | Attr.Dim =>
    { s with temp := { s.temp with flags := flagInsert s.temp.flags FlagDIM } }
  | Attr.CancelBoldDim =>
    { s with temp :=
        { s.temp with flags := flagRemove s.temp.flags (FlagBOLD ||| FlagDIM) } }
  | Attr.Italic =>
    { s with temp := { s.temp with flags := flagInsert s.temp.flags FlagITALIC } }
  | Attr.CancelItalic =>
    { s with temp := { s.temp with flags := flagRemove s.temp.flags FlagITALIC } }
  | Attr.Underline =>
    { s with temp := { s.temp with flags := flagInsert s.temp.flags FlagUNDERLINE } }
  | Attr.CancelUnderline =>
    { s with temp := { s.temp with flags := flagRemove s.temp.flags FlagUNDERLINE } }
  | Attr.Hidden =>
    { s with temp := { s.temp with flags := flagInsert s.temp.flags FlagHIDDEN } }
  | Attr.CancelHidden =>
    { s with temp := { s.temp with flags := flagRemove s.temp.flags FlagHIDDEN } }
  | Attr.Strike =>
    { s with temp := { s.temp with flags := flagInsert s.temp.flags FlagSTRIKEOUT } }
  | Attr.CancelStrike =>
    { s with temp := { s.temp with flags := flagRemove s.temp.flags FlagSTRIKEOUT } }
  | _ => s

/-- Handler::set_mode: only LineWrap has an effect. -/
def setMode (s : ConsoleInner) (mode : Mode) : ConsoleInner :=
  if mode = Mode.LineWrap then { s with autoWrap := true } else s

/-- Handler::unset_mode. -/
def unsetMode (s : ConsoleInner) (mode : Mode) : ConsoleInner :=
  if mode = Mode.LineWrap then { s with autoWrap := false } else s

end ConsoleInner

/-- Head of a vte parameter group (`param[0]`); vte never yields empty
groups, so the default is immaterial. -/
def paramHead (p : List Nat) : Nat := p.headD 0

/-- The `next_param_or(default)` closure of csi_dispatch: take the next
parameter group, use its head unless zero, else the default; also return
the unconsumed rest of the iterator. -/
def nextParamOr (ps : List (List Nat)) (d : Nat) : Nat × List (List Nat) :=
  match ps with
  | [] => (d, [])
  | p :: rest => (if paramHead p = 0 then d else paramHead p, rest)

/-- parse_sgr_color: consume a color specifier from the (head-mapped)
parameter iterator; returns the parsed color and the unconsumed groups.
A `u8::try_from` failure stops consumption at the failing item. -/
def parseSgrColor : List (List Nat) → Option Color × List (List Nat)
  | [] => (none, [])
  | p :: rest =>
    match paramHead p with
    | 2 =>
      match rest with
      | r :: rest2 =>
        if 255 < paramHead r then (none, rest2)
        else
          match rest2 with
          | g :: rest3 =>
            if 255 < paramHead g then (none, rest3)
            else
              match rest3 with
              | b :: rest4 =>
                if 255 < paramHead b then (none, rest4)
                else (some (Color.Spec (paramHead r) (paramHead g) (paramHead b)), rest4)
              | [] => (none, [])
          | [] => (none, [])
      | [] => (none, [])
    | 5 =>
      match rest with
      | i :: rest2 =>
        if 255 < paramHead i then (none, rest2)
        else (some (Color.Indexed (paramHead i)), rest2)
      | [] => (none, [])
    | _ => (none, rest)

/-- parse_sgr_color applied to a subparameter slice (`38:2::r:g:b` style
groups): body of the `[38, params @ ..]` arm of
attrs_from_sgr_parameters. -/
def parseSgrColorSub (sub : List Nat) : Option Color :=
  let rgbStart := if 4 < sub.length then 2 else 1
  (parseSgrColor ((sub.headD 0 :: sub.drop rgbStart).map (fun n => [n]))).1

/-- One step of attrs_from_sgr_parameters: map a parameter group to an
attribute, also returning the groups the 38/48 color forms consumed. -/
def sgrAttr (p : List Nat) (rest : List (List Nat)) :
    Option Attr × List (List Nat) :=
  match p with
  | [0] => (some Attr.Reset, rest)
  | [1] => (some Attr.Bold, rest)
  | [2] => (some Attr.Dim, rest)
  | [3] => (some Attr.Italic, rest)
  | [4, 0] => (some Attr.CancelUnderline, rest)
  | [4, 2] => (some Attr.DoubleUnderline, rest)
  | 4 :: _ => (some Attr.Underline, rest)
  | [5] => (some Attr.BlinkSlow, rest)
  | [6] => (some Attr.BlinkFast, rest)
  | [7] => (some Attr.Reverse, rest)
  | [8] => (some Attr.Hidden, rest)
  | [9] => (some Attr.Strike, rest)
  | [21] => (some Attr.CancelBold, rest)
  | [22] => (some Attr.CancelBoldDim, rest)
  | [23] => (some Attr.CancelItalic, rest)
  | [24] => (some Attr.CancelUnderline, rest)
  | [25] => (some Attr.CancelBlink, rest)
  | [27] => (some Attr.CancelReverse, rest)
  | [28] => (some Attr.CancelHidden, rest)
  | [29] => (some Attr.CancelStrike, rest)
  | [30] => (some (Attr.Foreground (Color.Named NamedColor.Black)), rest)
  | [31] => (some (Attr.Foreground (Color.Named NamedColor.Red)), rest)
  | [32] => (some (Attr.Foreground (Color.Named NamedColor.Green)), rest)
  | [33] => (some (Attr.Foreground (Color.Named NamedColor.Yellow)), rest)
  | [34] => (some (Attr.Foreground (Color.Named NamedColor.Blue)), rest)
  | [35] => (some (Attr.Foreground (Color.Named NamedColor.Magenta)), rest)
  | [36] => (some (Attr.Foreground (Color.Named NamedColor.Cyan)), rest)
  | [37] => (some (Attr.Foreground (Color.Named NamedColor.White)), rest)
  | [38] =>
    let (c, rest') := parseSgrColor rest
    (c.map Attr.Foreground, rest')
  | 38 :: sub => ((parseSgrColorSub sub).map Attr.Foreground, rest)
  | [39] => (some (Attr.Foreground Cell.default.fg), rest)
  | [40] => (some (Attr.Background (Color.Named NamedColor.Black)), rest)
  | [41] => (some (Attr.Background (Color.Named NamedColor.Red)), rest)
  | [42] => (some (Attr.Background (Color.Named NamedColor.Green)), rest)
  | [43] => (some (Attr.Background (Color.Named NamedColor.Yellow)), rest)
  | [44] => (some (Attr.Background (Color.Named NamedColor.Blue)), rest)
  | [45] => (some (Attr.Background (Color.Named NamedColor.Magenta)), rest)
  | [46] => (some (Attr.Background (Color.Named NamedColor.Cyan)), rest)
  | [47] => (some (Attr.Background (Color.Named NamedColor.White)), rest)
  | [48] =>
    let (c, rest') := parseSgrColor rest
    (c.map Attr.Background, rest')
  | 48 :: sub => ((parseSgrColorSub sub).map Attr.Background, rest)
  | [49] => (some (Attr.Background Cell.default.bg), rest)
  | [90] => (some (Attr.Foreground (Color.Named NamedColor.BrightBlack)), rest)
  | [91] => (some (Attr.Foreground (Color.Named NamedColor.BrightRed)), rest)
  | [92] => (some (Attr.Foreground (Color.Named NamedColor.BrightGreen)), rest)
  | [93] => (some (Attr.Foreground (Color.Named NamedColor.BrightYellow)), rest)
  | [94] => (some (Attr.Foreground (Color.Named NamedColor.BrightBlue)), rest)
  | [95] => (some (Attr.Foreground (Color.Named NamedColor.BrightMagenta)), rest)
  | [96] => (some (Attr.Foreground (Color.Named NamedColor.BrightCyan)), rest)
  | [97] => (some (Attr.Foreground (Color.Named NamedColor.BrightWhite)), rest)
  | [100] => (some (Attr.Background (Color.Named NamedColor.BrightBlack)), rest)
  | [101] => (some (Attr.Background (Color.Named NamedColor.BrightRed)), rest)
  | [102] => (some (Attr.Background (Color.Named NamedColor.BrightGreen)), rest)
  | [103] => (some (Attr.Background (Color.Named NamedColor.BrightYellow)), rest)
  | [104] => (some (Attr.Background (Color.Named NamedColor.BrightBlue)), rest)
  | [105] => (some (Attr.Background (Color.Named NamedColor.BrightMagenta)), rest)
  | [106] => (some (Attr.Background (Color.Named NamedColor.BrightCyan)), rest)
  | [107] => (some (Attr.Background (Color.Named NamedColor.BrightWhite)), rest)
  | _ => (none, rest)

namespace ConsoleInner

/-- The while-let loop of attrs_from_sgr_parameters feeding
terminal_attribute (an unrecognized attribute is logged only).  Each
round consumes at least the head group, so fuel equal to the number of
groups always suffices; the fuel only bounds the recursion depth. -/
def sgrLoopCore : Nat → ConsoleInner → List (List Nat) → ConsoleInner
  | 0, s, _ => s
  | fuel + 1, s, ps =>
    match ps with
    | [] => s
    | p :: rest =>
      let (attr, rest') := sgrAttr p rest
      match attr with
      | some a => sgrLoopCore fuel (s.terminalAttribute a) rest'
      | none => sgrLoopCore fuel s rest'

/-- attrs_from_sgr_parameters driving terminal_attribute. -/
def sgrLoop (s : ConsoleInner) (ps : List (List Nat)) : ConsoleInner :=
  sgrLoopCore (ps.length + 1) s ps

/-- The set_mode/unset_mode loop of the CSI `h`/`l` arms: every remaining
parameter group is interpreted through Mode::from_primitive. -/
def modeLoop (setIt : Bool) (s : ConsoleInner) (intermediates : List Nat)
    (ps : List (List Nat)) : ConsoleInner :=
  ps.foldl
    (fun st p =>
      match Mode.fromPrimitive intermediates.head? (paramHead p) with
      | some mode => if setIt then st.setMode mode else st.unsetMode mode
      | none => st)
    s

/-- Performer::csi_dispatch (src/ansi.rs lines 365-478).  A set
`ignoredInts` flag or more than one intermediate aborts the dispatch. -/
def csiDispatch (s : ConsoleInner) (params : List (List Nat))
    (intermediates : List Nat) (ignoredInts : Bool) (action : Char) :
    Option ConsoleInner :=
  if ignoredInts ∨ 1 < intermediates.length then some s
  else
    if action = 'A' ∧ intermediates.isEmpty then
      some (s.moveUp (nextParamOr params 1).1)
    else if (action = 'B' ∨ action = 'e') ∧ intermediates.isEmpty then
      s.moveDown (nextParamOr params 1).1
    else if (action = 'C' ∨ action = 'a') ∧ intermediates.isEmpty then
      s.moveForward (nextParamOr params 1).1
    else if action = 'D' ∧ intermediates.isEmpty then
      some (s.moveBackward (nextParamOr params 1).1)
    else if action = 'E' ∧ intermediates.isEmpty then
      s.moveDownAndCr (nextParamOr params 1).1
    else if action = 'F' ∧ intermediates.isEmpty then
      some (s.moveUpAndCr (nextParamOr params 1).1)
    else if (action = 'G' ∨ action = '`') ∧ intermediates.isEmpty then
      some (s.gotoCol ((nextParamOr params 1).1 - 1))
    else if (action = 'H' ∨ action = 'f') ∧ intermediates.isEmpty then
      let (y, ps) := nextParamOr params 1
      let (x, _) := nextParamOr ps 1
      some (s.goto (y - 1) (x - 1))
    else if action = 'J' ∧ intermediates.isEmpty then
      match (nextParamOr params 0).1 with
      | 0 => s.clearScreen ClearMode.Below
      | 1 => s.clearScreen ClearMode.Above
      | 2 => s.clearScreen ClearMode.All
      | 3 => s.clearScreen ClearMode.Saved
      | _ => some s
    else if action = 'K' ∧ intermediates.isEmpty then
      match (nextParamOr params 0).1 with
      | 0 => s.clearLineMode LineClearMode.Right
      | 1 => s.clearLineMode LineClearMode.Left
      | 2 => s.clearLineMode LineClearMode.All
      | _ => some s
    else if action = 'P' ∧ intermediates.isEmpty then
      s.deleteChars (nextParamOr params 1).1
    else if (action = 'S' ∨ action = 'T') ∧ intermediates.isEmpty then
      some s
    else if action = 'X' ∧ intermediates.isEmpty then
      s.eraseChars (nextParamOr params 1).1
    else if action = 'd' ∧ intermediates.isEmpty then
      some (s.gotoLine ((nextParamOr params 1).1 - 1))
    else if action = 'h' then
      some (modeLoop true s intermediates params)
    else if action = 'l' then
      some (modeLoop false s intermediates params)
    else if action = 'm' then
      if params.isEmpty then some (s.terminalAttribute Attr.Reset)
      else some (s.sgrLoop params)
    else if action = 'n' ∧ intermediates.isEmpty then
      some (s.deviceStatus (nextParamOr params 0).1)
    else if action = 'r' ∧ intermediates.isEmpty then
      some s
    else some s

/-- Performer::esc_dispatch: ESC 7 saves, ESC 8 restores; everything else
is logged only. -/
def escDispatch (s : ConsoleInner) (intermediates : List Nat) (byte : Nat) :
    ConsoleInner :=
  if byte = 0x37 ∧ intermediates.isEmpty then s.saveCursorPosition
  else if byte = 0x38 ∧ intermediates.isEmpty then s.restoreCursorPosition
  else s

/-- Performer::execute: the C0 controls HT, BS, CR, LF, VT and FF are
handled; everything else is logged only. -/
def execute (s : ConsoleInner) (byte : Nat) : Option ConsoleInner :=
  if byte = 0x09 then s.putTab 1
  else if byte = 0x08 then some s.backspace
  else if byte = 0x0d then some s.carriageReturn
  else if byte = 0x0a ∨ byte = 0x0b ∨ byte = 0x0c then s.linefeed
  else some s

end ConsoleInner

/-! ## The byte parser

Modelled from the spec: the byte-level state machine is the external
`vte` crate (not part of src/), specified in spec sections 4.1 and 6
(the byte input contract).  The model covers the paths the spec
describes for this core: Ground print/execute, ESC dispatch, and CSI
parameter/intermediate collection with final-byte dispatch.  Multi-byte
UTF-8 collection is elided (a completed code point would issue a single
`print`, the same callback the model issues for ASCII); DCS/OSC strings
are parsed and discarded per the spec and dispatch nothing. -/

/-- Parser states (spec section 4.1). -/
inductive PMode where
  | ground | escape | csiEntry | csiParam | csiIntermediate | csiIgnore
  deriving DecidableEq

/-- One callback issued to the performer. -/
inductive Dispatch where
  | print (c : Char)
  | exec (b : Nat)
  | csi (params : List (List Nat)) (ints : List Nat) (ignoredInts : Bool)
      (action : Char)
  | esc (ints : List Nat) (b : Nat)
  deriving DecidableEq

/-- Modelled from the spec: the state of the external vte parser. -/
structure VtParser where
  mode : PMode
  params : List (List Nat)
  cur : Nat
  ints : List Nat
  ignoredInts : Bool
  deriving DecidableEq

/-- The fresh parser (Parser::new). -/
def VtParser.init : VtParser :=
  { mode := PMode.ground, params := [], cur := 0, ints := [], ignoredInts := false }

/-- Clear collected state on entering an escape sequence. -/
def VtParser.resetCollect (p : VtParser) : VtParser :=
  { p with params := [], cur := 0, ints := [], ignoredInts := false }

/-- Modelled from the spec: advance the vte state machine by one byte,
returning the new parser state and the callback dispatched, if any.
Parameters saturate at the u16 maximum as in vte. -/
def VtParser.advance (p : VtParser) (b : Nat) : VtParser × Option Dispatch :=
  match p.mode with
  | PMode.ground =>
    if b = 0x1b then ({ p with mode := PMode.escape }, none)
    else if 0x20 ≤ b ∧ b ≤ 0x7e then (p, some (Dispatch.print (Char.ofNat b)))
    else if b < 0x20 ∨ b = 0x7f then (p, some (Dispatch.exec b))
    else (p, none)
  | PMode.escape =>
    if b = 0x5b then ({ p.resetCollect with mode := PMode.csiEntry }, none)
    else if b = 0x1b then (p, none)
    else if 0x20 ≤ b ∧ b ≤ 0x2f then ({ p with ints := p.ints ++ [b] }, none)
    else if 0x30 ≤ b ∧ b ≤ 0x7e then
      ({ p.resetCollect with mode := PMode.ground }, some (Dispatch.esc p.ints b))
    else if b < 0x20 then (p, some (Dispatch.exec b))
    else (p, none)
  | PMode.csiEntry =>
    if b = 0x1b then ({ p with mode := PMode.escape }, none)
    else if b < 0x20 then (p, some (Dispatch.exec b))
    else if 0x30 ≤ b ∧ b ≤ 0x39 then
      ({ p with mode := PMode.csiParam, cur := min (p.cur * 10 + (b - 0x30)) 0xffff },
        none)
    else if b = 0x3b then
      ({ p with mode := PMode.csiParam, params := p.params ++ [[p.cur]], cur := 0 },
        none)
    else if b = 0x3a then ({ p with mode := PMode.csiIgnore }, none)
    else if 0x3c ≤ b ∧ b ≤ 0x3f then
      ({ p with mode := PMode.csiParam, ints := p.ints ++ [b] }, none)
    else if 0x20 ≤ b ∧ b ≤ 0x2f then
      ({ p with mode := PMode.csiIntermediate, ints := p.ints ++ [b] }, none)
    else if 0x40 ≤ b ∧ b ≤ 0x7e then
      ({ p.resetCollect with mode := PMode.ground },
        some (Dispatch.csi p.params p.ints p.ignoredInts (Char.ofNat b)))
    else (p, none)
  | PMode.csiParam =>
    if b = 0x1b then ({ p with mode := PMode.escape }, none)
    else if b < 0x20 then (p, some (Dispatch.exec b))
    else if 0x30 ≤ b ∧ b ≤ 0x39 then
      ({ p with cur := min (p.cur * 10 + (b - 0x30)) 0xffff }, none)
    else if b = 0x3b then
      ({ p with params := p.params ++ [[p.cur]], cur := 0 }, none)
    else if b = 0x3a ∨ (0x3c ≤ b ∧ b ≤ 0x3f) then
      ({ p with mode := PMode.csiIgnore }, none)
    else if 0x20 ≤ b ∧ b ≤ 0x2f then
      ({ p with mode := PMode.csiIntermediate, params := p.params ++ [[p.cur]], ints := p.ints ++ [b] }, none)
    else if 0x40 ≤ b ∧ b ≤ 0x7e then
      ({ p.resetCollect with mode := PMode.ground },
        some (Dispatch.csi (p.params ++ [[p.cur]]) p.ints p.ignoredInts
          (Char.ofNat b)))
    else (p, none)
  | PMode.csiIntermediate =>
    if b = 0x1b then ({ p with mode := PMode.escape }, none)
    else if b < 0x20 then (p, some (Dispatch.exec b))
    else if 0x20 ≤ b ∧ b ≤ 0x2f then
      if p.ints.length < 2 then ({ p with ints := p.ints ++ [b] }, none)
      else ({ p with ignoredInts := true }, none)
    else if 0x40 ≤ b ∧ b ≤ 0x7e then
      ({ p.resetCollect with mode := PMode.ground },
        some (Dispatch.csi p.params p.ints p.ignoredInts (Char.ofNat b)))
    else ({ p with mode := PMode.csiIgnore }, none)
  | PMode.csiIgnore =>
    if b = 0x1b then ({ p with mode := PMode.escape }, none)
    else if b < 0x20 then (p, some (Dispatch.exec b))
    else if 0x40 ≤ b ∧ b ≤ 0x7e then
      ({ p.resetCollect with mode := PMode.ground }, none)
    else (p, none)

/-! ## The console facade (src/console.rs `Console`) -/

/-- Console: the vte parser paired with the terminal state. -/
structure Console where
  p : VtParser
  inner : ConsoleInner
  deriving DecidableEq

/-- Apply one parser callback to the terminal state (the `Perform`
implementation of src/ansi.rs). -/
def applyDispatch (s : ConsoleInner) : Dispatch → Option ConsoleInner
  | Dispatch.print c => s.input c
  | Dispatch.exec b => s.execute b
  | Dispatch.csi ps ints ign a => s.csiDispatch ps ints ign a
  | Dispatch.esc ints b => some (s.escDispatch ints b)

/-- Console::write_byte: advance the parser, performing the dispatched
callback on the inner state.  `none` is a panic. -/
def writeByte (c : Console) (b : Nat) : Option Console :=
  match c.p.advance b with
  | (p', none) => some { c with p := p' }
  | (p', some d) => (applyDispatch c.inner d).map fun i => { p := p', inner := i }

/-- Feed a byte sequence (Console::write_str feeds bytes in order). -/
def writeBytes (c : Console) (bs : List Nat) : Option Console :=
  bs.foldlM writeByte c

/-- Console::on_text_buffer over a fresh TextBufferCache of the given
dimensions (Console::on_cached_text_buffer): default cursor, saved
cursor and template, auto-wrap on, empty report queue. -/
def mkConsole (w h : Nat) : Console :=
  { p := VtParser.init
    inner :=
      { cursor := { row := 0, col := 0 }
        savedCursor := { row := 0, col := 0 }
        temp := Cell.default
        buf := TextBufferCache.create w h
        autoWrap := true
        report := [] } }

/-- Console::pop_report: pop the front of the report queue. -/
def popReport (c : Console) : Option Nat × Console :=
  match c.inner.report with
  | [] => (none, c)
  | b :: rest => (some b, { c with inner := { c.inner with report := rest } })

/-- Successive results of `n` pop_report calls, in order. -/
def popList (c : Console) : Nat → List (Option Nat)
  | 0 => []
  | n + 1 =>
    let (r, c') := popReport c
    r :: popList c' n

/-! ## Definitions used by the verification (invariants and expected
contents) -/

namespace TextBufferCache

/-- Raw physical store access. -/
def cellAt (b : TextBufferCache) (r c : Nat) : Option Cell :=
  (b.buf.get? r).bind fun rowl => rowl.get? c

/-- Well-formed physical store: height rows of width cells. -/
def WF (b : TextBufferCache) : Prop :=
  b.buf.length = b.height ∧
    ∀ i rowl, b.buf.get? i = some rowl → rowl.length = b.width

end TextBufferCache

namespace ConsoleInner

/-- Invariant: well-formed store, cursor and saved cursor within
`row ≤ height` and `col ≤ width`. -/
def Inv (s : ConsoleInner) : Prop :=
  s.buf.WF ∧ s.cursor.row ≤ s.buf.height ∧ s.cursor.col ≤ s.buf.width ∧
    s.savedCursor.row ≤ s.buf.height ∧ s.savedCursor.col ≤ s.buf.width

/-- An operation preserves dimensions and the invariant. -/
def Pres (f : ConsoleInner → Option ConsoleInner) : Prop :=
  ∀ s s', f s = some s' →
    (s'.buf.width = s.buf.width ∧ s'.buf.height = s.buf.height) ∧
      (Inv s → Inv s')

/-- The console fields a pure-grid operation leaves unchanged. -/
def SameConsole (s s' : ConsoleInner) : Prop :=
  s'.cursor = s.cursor ∧ s'.savedCursor = s.savedCursor ∧
    s'.temp = s.temp ∧ s'.autoWrap = s.autoWrap ∧ s'.report = s.report

/-- Geometry (dimensions and rotation offset) unchanged. -/
def SameGeo (s s' : ConsoleInner) : Prop :=
  s'.buf.width = s.buf.width ∧ s'.buf.height = s.buf.height ∧
    s'.buf.rowOffset = s.buf.rowOffset

end ConsoleInner

/-! ## Supporting lemmas: list updates -/

theorem setAt_spec {α} {l l' : List α} {n : Nat} {a : α}
    (h : setAt l n a = some l') :
    l'.length = l.length ∧ n < l.length ∧
      ∀ m, l'.get? m = if m = n then some a else l.get? m := by
  induction l generalizing n l' with
  | nil => simp [setAt] at h
  | cons x xs ih =>
    cases n with
    | zero =>
      simp only [setAt, Option.some.injEq] at h
      subst h
      refine ⟨rfl, Nat.succ_pos _, ?_⟩
      intro m
      cases m <;> simp
    | succ n =>
      simp only [setAt, Option.map_eq_some'] at h
      obtain ⟨l'', h1, h2⟩ := h
      subst h2
      obtain ⟨hlen, hlt, hget⟩ := ih h1
      refine ⟨by simp [hlen], Nat.succ_lt_succ hlt, ?_⟩
      intro m
      cases m with
      | zero => simp
      | succ m => simpa using hget m

theorem setAt_exists {α} {l : List α} {n : Nat} (a : α) (h : n < l.length) :
    ∃ l', setAt l n a = some l' := by
  induction l generalizing n with
  | nil => simp at h
  | cons x xs ih =>
    cases n with
    | zero => exact ⟨_, rfl⟩
    | succ n =>
      obtain ⟨l', hl'⟩ := ih (Nat.lt_of_succ_lt_succ h)
      exact ⟨x :: l', by simp [setAt, hl']⟩

theorem get?_some_lt {α} {l : List α} {n : Nat} {a : α}
    (h : l.get? n = some a) : n < l.length := by
  by_contra hc
  rw [List.get?_eq_none.mpr (by omega)] at h
  cases h

theorem get?_replicate {α} (a : α) (n i : Nat) :
    (List.replicate n a).get? i = if i < n then some a else none := by
  induction n generalizing i with
  | zero => simp
  | succ n ih =>
    cases i with
    | zero => simp
    | succ i => simpa [List.replicate] using ih i

theorem get?_exists_of_lt {α} {l : List α} {n : Nat} (h : n < l.length) :
    ∃ a, l.get? n = some a := by
  induction l generalizing n with
  | nil => simp at h
  | cons x xs ih =>
    cases n with
    | zero => exact ⟨x, rfl⟩
    | succ n => exact ih (Nat.lt_of_succ_lt_succ h)

theorem foldlM_cons_option {α σ} (g : σ → α → Option σ) (s : σ) (x : α)
    (xs : List α) :
    (x :: xs).foldlM g s = (g s x).bind fun s' => xs.foldlM g s' := rfl

theorem foldlM_nil_option {α σ} (g : σ → α → Option σ) (s : σ) :
    ([] : List α).foldlM g s = some s := rfl

/-! ## Supporting lemmas: the cache -/

namespace TextBufferCache

theorem create_WF (w h : Nat) : (create w h).WF := by
  constructor
  · simp [create]
  · intro i rowl hrow
    simp only [create, get?_replicate] at hrow
    split at hrow
    · cases hrow; simp [create]
    · cases hrow

theorem read_eq_cellAt (b : TextBufferCache) (row col : Nat) :
    b.read row col = b.cellAt (b.realRow row) col := rfl

theorem writePhys_spec {b b' : TextBufferCache} {row col : Nat} {cell : Cell}
    (h : b.writePhys row col cell = some b') (hwf : b.WF) :
    b'.WF ∧ b'.width = b.width ∧ b'.height = b.height ∧
      b'.rowOffset = b.rowOffset ∧ row < b.height ∧ col < b.width ∧
      b'.trace = b.trace ++ [InnerOp.write row col cell] ∧
      ∀ r c, b'.cellAt r c =
        if r = row ∧ c = col then some cell else b.cellAt r c := by
  simp only [writePhys, Option.map_eq_some'] at h
  obtain ⟨m, hm, hb'⟩ := h
  simp only [setCell, Option.bind_eq_some] at hm
  obtain ⟨rowl, hrowl, l', hl', hm'⟩ := hm
  obtain ⟨hlen1, hlt1, hget1⟩ := setAt_spec hl'
  obtain ⟨hlen2, hlt2, hget2⟩ := setAt_spec hm'
  have hrowlen : rowl.length = b.width := hwf.2 _ _ hrowl
  have hrowlt : row < b.height := by
    have h1 : row < b.buf.length := get?_some_lt hrowl
    have h2 := hwf.1
    omega
  subst hb'
  refine ⟨⟨?_, ?_⟩, rfl, rfl, rfl, hrowlt, hrowlen ▸ hlt1, rfl, ?_⟩
  · simpa [hlen2] using hwf.1
  · intro i rl hi
    rw [hget2 i] at hi
    split at hi
    · cases hi; simpa [hlen1] using hrowlen
    · exact hwf.2 _ _ hi
  · intro r c
    show (m.get? r).bind (fun rowl => rowl.get? c) = _
    rw [hget2 r]
    by_cases hr : r = row
    · have hrowl' : b.buf.get? r = some rowl := by rw [hr]; exact hrowl
      rw [if_pos hr]
      show l'.get? c = _
      rw [hget1 c]
      by_cases hc : c = col
      · rw [if_pos hc, if_pos ⟨hr, hc⟩]
      · rw [if_neg hc, if_neg (fun hand => hc hand.2)]
        show _ = (b.buf.get? r).bind (fun rowl => rowl.get? c)
        rw [hrowl']
        rfl
    · rw [if_neg hr, if_neg (fun hand => hr hand.1)]
      rfl

theorem writePhys_exists (b : TextBufferCache) (row col : Nat) (cell : Cell)
    (hwf : b.WF) (hrow : row < b.height) (hcol : col < b.width) :
    ∃ b', b.writePhys row col cell = some b' := by
  obtain ⟨rowl, hrowl⟩ :=
    get?_exists_of_lt (l := b.buf) (n := row) (by rw [hwf.1]; exact hrow)
  have hlen : rowl.length = b.width := hwf.2 _ _ hrowl
  obtain ⟨l', hl'⟩ := setAt_exists cell (l := rowl) (by rw [hlen]; exact hcol)
  obtain ⟨m, hm⟩ :=
    setAt_exists l' (l := b.buf) (n := row) (by rw [hwf.1]; exact hrow)
  refine ⟨{ b with buf := m, trace := b.trace ++ [InnerOp.write row col cell] }, ?_⟩
  simp only [writePhys, setCell, hrowl, hl', hm, Option.some_bind,
    Option.map_some']

/-- With a positive height the physical row of any logical row is in
range. -/
theorem realRow_lt (b : TextBufferCache) (row : Nat) (h : 0 < b.height) :
    b.realRow row < b.height := Nat.mod_lt _ h

/-- Logical rows below the height map to distinct physical rows. -/
theorem realRow_inj {b : TextBufferCache} {r1 r2 : Nat}
    (h1 : r1 < b.height) (h2 : r2 < b.height)
    (h : b.realRow r1 = b.realRow r2) : r1 = r2 := by
  have hm : Nat.ModEq b.height (b.rowOffset + r1) (b.rowOffset + r2) := h
  have := (Nat.ModEq.add_left_cancel' b.rowOffset hm)
  have : r1 % b.height = r2 % b.height := this
  rwa [Nat.mod_eq_of_lt h1, Nat.mod_eq_of_lt h2] at this

/-- Effect of the `clear_line` column loop over `[a, a + k)`. -/
theorem clearLine_fold (cell : Cell) (r0 : Nat) :
    ∀ (k a : Nat) (b : TextBufferCache), b.WF → r0 < b.height →
      a + k ≤ b.width →
      ∃ b', (List.range' a k).foldlM
          (fun st col => st.writePhys r0 col cell) b = some b' ∧
        b'.WF ∧ b'.width = b.width ∧ b'.height = b.height ∧
        b'.rowOffset = b.rowOffset ∧
        ∀ r c, b'.cellAt r c =
          if r = r0 ∧ a ≤ c ∧ c < a + k then some cell else b.cellAt r c := by
  intro k
  induction k with
  | zero =>
    intro a b hwf hr0 hak
    refine ⟨b, rfl, hwf, rfl, rfl, rfl, ?_⟩
    intro r c
    rw [if_neg (by omega)]
  | succ k ih =>
    intro a b hwf hr0 hak
    obtain ⟨b1, hb1⟩ :=
      writePhys_exists b r0 a cell hwf hr0 (by omega)
    obtain ⟨hwf1, hw1, hh1, hro1, _, _, _, hcell1⟩ := writePhys_spec hb1 hwf
    obtain ⟨b', hfold, hwf', hw', hh', hro', hcell'⟩ :=
      ih (a + 1) b1 hwf1 (by omega) (by omega)
    refine ⟨b', ?_, hwf', by omega, by omega, by omega, ?_⟩
    · show (List.range' a (k + 1)).foldlM
          (fun st col => st.writePhys r0 col cell) b = some b'
      rw [List.range'_succ, foldlM_cons_option, hb1]
      exact hfold
    · intro r c
      rw [hcell' r c, hcell1 r c]
      by_cases hr : r = r0
      · subst hr
        by_cases hc1 : a + 1 ≤ c ∧ c < a + 1 + k
        · rw [if_pos ⟨rfl, hc1.1, hc1.2⟩, if_pos ⟨rfl, by omega, by omega⟩]
        · rw [if_neg (by omega)]
          by_cases hc2 : c = a
          · rw [if_pos ⟨rfl, hc2⟩, if_pos ⟨rfl, by omega, by omega⟩]
          · rw [if_neg (by simp [hc2]), if_neg (by omega)]
      · rw [if_neg (by simp [hr]), if_neg (by simp [hr]), if_neg (by simp [hr])]

/-- Effect of `clear_line` on a physical row. -/
theorem clearLine_spec {b : TextBufferCache} {r0 : Nat} {cell : Cell}
    (hwf : b.WF) (hr0 : r0 < b.height) :
    ∃ b', b.clearLine r0 cell = some b' ∧
      b'.WF ∧ b'.width = b.width ∧ b'.height = b.height ∧
      b'.rowOffset = b.rowOffset ∧
      ∀ r c, b'.cellAt r c =
        if r = r0 ∧ c < b.width then some cell else b.cellAt r c := by
  obtain ⟨b', hfold, hwf', hw', hh', hro', hcell'⟩ :=
    clearLine_fold cell r0 b.width 0 b hwf hr0 (by omega)
  refine ⟨b', ?_, hwf', hw', hh', hro', ?_⟩
  · show (List.range b.width).foldlM
        (fun st col => st.writePhys r0 col cell) b = some b'
    rw [List.range_eq_range']
    exact hfold
  · intro r c
    rw [hcell' r c]
    by_cases h : r = r0 ∧ c < b.width
    · rw [if_pos ⟨h.1, by omega, by omega⟩, if_pos h]
    · rw [if_neg (by omega), if_neg h]

/-- Effect of `new_line`: the physical row at the old offset is filled
with the given cell and the offset advances by one modulo the height. -/
theorem newLine_spec (b : TextBufferCache) (cell : Cell)
    (hwf : b.WF) (hro : b.rowOffset < b.height) :
    ∃ b', b.newLine cell = some b' ∧
      b'.WF ∧ b'.width = b.width ∧ b'.height = b.height ∧
      b'.rowOffset = (b.rowOffset + 1) % b.height ∧
      ∀ r c, b'.cellAt r c =
        if r = b.rowOffset ∧ c < b.width then some cell else b.cellAt r c := by
  obtain ⟨b1, hcl, hwf1, hw1, hh1, hro1, hcell1⟩ := clearLine_spec hwf hro
  refine ⟨{ b1 with rowOffset := (b1.rowOffset + 1) % b1.height },
    ?_, ⟨hwf1.1, fun i rl h => hwf1.2 i rl h⟩, hw1, hh1, ?_,
    fun r c => hcell1 r c⟩
  · show (b.clearLine b.rowOffset cell).map _ = _
    rw [hcl, Option.map_some']
  · show (b1.rowOffset + 1) % b1.height = (b.rowOffset + 1) % b.height
    rw [hro1, hh1]

end TextBufferCache

/-! ## Supporting lemmas: handler operations -/

namespace ConsoleInner

theorem pres_foldlM {α} {g : ConsoleInner → α → Option ConsoleInner}
    (H : ∀ a, Pres (fun s => g s a)) (l : List α) :
    Pres (fun s => l.foldlM g s) := by
  induction l with
  | nil =>
    intro s s' h
    cases h
    exact ⟨⟨rfl, rfl⟩, id⟩
  | cons x xs ih =>
    intro s s' h
    change (x :: xs).foldlM g s = some s' at h
    rw [foldlM_cons_option] at h
    rcases hx : g s x with _ | s1
    · rw [hx] at h; cases h
    · rw [hx, Option.some_bind] at h
      obtain ⟨⟨hw1, hh1⟩, hi1⟩ := H x s s1 hx
      obtain ⟨⟨hw2, hh2⟩, hi2⟩ := ih s1 s' h
      exact ⟨⟨by omega, by omega⟩, fun hs => hi2 (hi1 hs)⟩

theorem pres_goto (row col : Nat) :
    Pres (fun s => some (s.goto row col)) := by
  intro s s' h
  cases h
  refine ⟨⟨rfl, rfl⟩, fun hs => ⟨hs.1, ?_, ?_, hs.2.2.2⟩⟩
  · exact Nat.min_le_right _ _
  · exact Nat.min_le_right _ _

theorem withBuf_write_pres (rf cf : ConsoleInner → Nat)
    (gf : ConsoleInner → Cell) :
    Pres (fun st => (st.buf.write (rf st) (cf st) (gf st)).map st.withBuf) := by
  intro s s' h
  simp only [Option.map_eq_some'] at h
  obtain ⟨b, hb, hs'⟩ := h
  subst hs'
  constructor
  · simp only [TextBufferCache.write, TextBufferCache.writePhys,
      Option.map_eq_some'] at hb
    obtain ⟨m, _, hb'⟩ := hb
    subst hb'
    exact ⟨rfl, rfl⟩
  · intro hs
    obtain ⟨hwf', hw', hh', _, _, _, _, _⟩ :=
      TextBufferCache.writePhys_spec hb hs.1
    exact ⟨hwf', by rw [withBuf, hh']; exact hs.2.1,
      by rw [withBuf, hw']; exact hs.2.2.1,
      by rw [withBuf, hh']; exact hs.2.2.2.1,
      by rw [withBuf, hw']; exact hs.2.2.2.2⟩

theorem cache_write_fields {b b' : TextBufferCache} {row col : Nat}
    {cell : Cell} (h : b.write row col cell = some b') :
    b'.width = b.width ∧ b'.height = b.height ∧ b'.rowOffset = b.rowOffset := by
  simp only [TextBufferCache.write, TextBufferCache.writePhys,
    Option.map_eq_some'] at h
  obtain ⟨m, _, hb'⟩ := h
  subst hb'
  exact ⟨rfl, rfl, rfl⟩

theorem pres_linefeed : Pres linefeed := by
  intro s s' h
  simp only [linefeed, Option.bind_eq_some] at h
  obtain ⟨hm1, hsub, h⟩ := h
  have hh : s.buf.height = hm1 + 1 := by
    simp only [usizeSub] at hsub
    split at hsub
    · cases hsub; omega
    · cases hsub
  split at h
  case isTrue hlt =>
    cases h
    have hlt' : s.cursor.row < hm1 := hlt
    refine ⟨⟨rfl, rfl⟩, fun hs => ⟨hs.1, ?_, ?_, hs.2.2.2⟩⟩
    · show s.cursor.row + 1 ≤ s.buf.height
      omega
    · show (0 : Nat) ≤ s.buf.width
      omega
  case isFalse hlt =>
    simp only [Option.map_eq_some'] at h
    obtain ⟨b, hb, hs'⟩ := h
    subst hs'
    simp only [TextBufferCache.newLine, Option.map_eq_some'] at hb
    obtain ⟨b1, hcl, hb'⟩ := hb
    have hcl' :
        (List.range s.buf.width).foldlM
          (fun st col => st.writePhys s.buf.rowOffset col s.temp) s.buf =
          some b1 := hcl
    have hfold :
        ∀ (l : List Nat) (b b' : TextBufferCache),
          l.foldlM (fun st col => st.writePhys s.buf.rowOffset col s.temp) b =
            some b' →
          (b'.width = b.width ∧ b'.height = b.height) ∧ (b.WF → b'.WF) := by
      intro l
      induction l with
      | nil =>
        intro b b' hf
        cases hf
        exact ⟨⟨rfl, rfl⟩, id⟩
      | cons x xs ih =>
        intro b b' hf
        rw [foldlM_cons_option] at hf
        rcases hx : b.writePhys s.buf.rowOffset x s.temp with _ | b1'
        · rw [hx] at hf; cases hf
        · rw [hx, Option.some_bind] at hf
          obtain ⟨⟨hw2, hh2⟩, hwf2⟩ := ih b1' b' hf
          constructor
          · simp only [TextBufferCache.writePhys, Option.map_eq_some'] at hx
            obtain ⟨m, _, hb1'⟩ := hx
            subst hb1'
            exact ⟨by rw [hw2], by rw [hh2]⟩
          · intro hwf
            obtain ⟨hwf1, _, _, _, _, _, _, _⟩ :=
              TextBufferCache.writePhys_spec hx hwf
            exact hwf2 hwf1
    obtain ⟨⟨hw1, hh1⟩, hwfp⟩ := hfold _ _ _ hcl'
    subst hb'
    refine ⟨⟨by simpa [withBuf] using hw1, by simpa [withBuf] using hh1⟩, ?_⟩
    intro hs
    refine ⟨⟨(hwfp hs.1).1, fun i rl hrl => (hwfp hs.1).2 i rl hrl⟩,
      ?_, ?_, ?_, ?_⟩
    · show s.cursor.row ≤ b1.height
      rw [hh1]; exact hs.2.1
    · show (0 : Nat) ≤ b1.width
      omega
    · show s.savedCursor.row ≤ b1.height
      rw [hh1]; exact hs.2.2.2.1
    · show s.savedCursor.col ≤ b1.width
      rw [hw1]; exact hs.2.2.2.2

theorem pres_inputWrite (ch : Char) : Pres (fun s => inputWrite s ch) := by
  intro s s' h
  simp only [inputWrite, Option.map_eq_some'] at h
  obtain ⟨b, hb, hs'⟩ := h
  subst hs'
  refine ⟨⟨(cache_write_fields hb).1, (cache_write_fields hb).2.1⟩, ?_⟩
  intro hs
  obtain ⟨hwf', hw', hh', _, _, hcol, _, _⟩ :=
    TextBufferCache.writePhys_spec hb hs.1
  refine ⟨hwf', ?_, ?_, ?_, ?_⟩
  · show s.cursor.row ≤ b.height
    rw [hh']; exact hs.2.1
  · show s.cursor.col + 1 ≤ b.width
    rw [hw']; omega
  · show s.savedCursor.row ≤ b.height
    rw [hh']; exact hs.2.2.2.1
  · show s.savedCursor.col ≤ b.width
    rw [hw']; exact hs.2.2.2.2

theorem pres_input (ch : Char) : Pres (fun s => input s ch) := by
  intro s s' h
  simp only [input] at h
  split at h
  · split at h
    · rcases hlf : linefeed { s with cursor := { s.cursor with col := 0 } }
        with _ | s1
      · rw [hlf] at h; cases h
      · rw [hlf, Option.some_bind] at h
        obtain ⟨⟨hw1, hh1⟩, hi1⟩ := pres_linefeed _ _ hlf
        have hw1' : s1.buf.width = s.buf.width := hw1
        have hh1' : s1.buf.height = s.buf.height := hh1
        obtain ⟨⟨hw2, hh2⟩, hi2⟩ := pres_inputWrite ch _ _ h
        refine ⟨⟨by omega, by omega⟩, ?_⟩
        intro hs
        refine hi2 (hi1 ⟨hs.1, hs.2.1, ?_, hs.2.2.2⟩)
        show (0 : Nat) ≤ s.buf.width
        omega
    · cases h
      exact ⟨⟨rfl, rfl⟩, id⟩
  · exact pres_inputWrite ch _ _ h

theorem pres_tabLoop (bg : Cell) : ∀ fuel, Pres (tabLoop bg fuel) := by
  intro fuel
  induction fuel with
  | zero =>
    intro s s' h
    cases h
  | succ fuel ih =>
    intro s s' h
    simp only [tabLoop] at h
    rcases hb : s.buf.write s.cursor.row s.cursor.col bg with _ | b
    · rw [hb] at h; cases h
    · rw [hb, Option.some_bind] at h
      have hdim : b.width = s.buf.width ∧ b.height = s.buf.height :=
        ⟨(cache_write_fields hb).1, (cache_write_fields hb).2.1⟩
      have hinv : Inv s →
          Inv { s with buf := b, cursor := { s.cursor with col := s.cursor.col + 1 } } := by
        intro hs
        obtain ⟨hwf', hw', hh', _, _, hcol, _, _⟩ :=
          TextBufferCache.writePhys_spec hb hs.1
        refine ⟨hwf', ?_, ?_, ?_, ?_⟩
        · show s.cursor.row ≤ b.height
          rw [hh']; exact hs.2.1
        · show s.cursor.col + 1 ≤ b.width
          rw [hw']; omega
        · show s.savedCursor.row ≤ b.height
          rw [hh']; exact hs.2.2.2.1
        · show s.savedCursor.col ≤ b.width
          rw [hw']; exact hs.2.2.2.2
      split at h
      · obtain rfl := Option.some.inj h
        exact ⟨⟨hdim.1, hdim.2⟩, hinv⟩
      · obtain ⟨⟨hw2, hh2⟩, hi2⟩ := ih _ s' h
        have hw2' : s'.buf.width = b.width := hw2
        have hh2' : s'.buf.height = b.height := hh2
        refine ⟨⟨?_, ?_⟩, fun hs => hi2 (hinv hs)⟩
        · show s'.buf.width = s.buf.width
          omega
        · show s'.buf.height = s.buf.height
          omega

theorem pres_tabGo (bg : Cell) : ∀ count, Pres (tabGo bg count) := by
  intro count
  induction count with
  | zero =>
    intro s s' h
    cases h
    exact ⟨⟨rfl, rfl⟩, id⟩
  | succ count ih =>
    intro s s' h
    simp only [tabGo] at h
    split at h
    · rcases hl : tabLoop bg (s.buf.width + 1) s with _ | s1
      · rw [hl] at h; cases h
      · rw [hl, Option.some_bind] at h
        obtain ⟨⟨hw1, hh1⟩, hi1⟩ := pres_tabLoop bg _ _ _ hl
        obtain ⟨⟨hw2, hh2⟩, hi2⟩ := ih _ _ h
        exact ⟨⟨by omega, by omega⟩, fun hs => hi2 (hi1 hs)⟩
    · cases h
      exact ⟨⟨rfl, rfl⟩, id⟩

theorem pres_putTab (count : Nat) : Pres (fun s => putTab s count) := by
  intro s s' h
  exact pres_tabGo _ count s s' h

theorem pres_eraseChars (count : Nat) : Pres (fun s => eraseChars s count) := by
  intro s s' h
  simp only [eraseChars] at h
  exact pres_foldlM
    (fun i => withBuf_write_pres (fun st => st.cursor.row) (fun _ => i)
      (fun _ => s.temp.bgOnly)) _ s s' h

theorem pres_deleteChars (count : Nat) :
    Pres (fun s => deleteChars s count) := by
  intro s s' h
  simp only [deleteChars] at h
  rcases h1 : usizeSub s.buf.width s.cursor.col with _ | d
  · rw [h1] at h; cases h
  · rw [h1, Option.some_bind] at h
    rcases h2 : usizeSub d 1 with _ | cm
    · rw [h2] at h; cases h
    · rw [h2, Option.some_bind] at h
      refine pres_foldlM (fun i => ?_) _ s s' h
      intro t t' ht
      simp only at ht
      rcases hr : t.buf.read s.cursor.row i with _ | cell
      · rw [hr] at ht; cases ht
      · rw [hr, Option.some_bind] at ht
        rcases hw1 : t.buf.write s.cursor.row (i - min count cm) cell
          with _ | b1
        · rw [hw1] at ht; cases ht
        · rw [hw1, Option.some_bind] at ht
          simp only [Option.map_eq_some'] at ht
          obtain ⟨b2, hw2, ht'⟩ := ht
          subst ht'
          have hf1 := cache_write_fields hw1
          have hf2 := cache_write_fields hw2
          refine ⟨⟨?_, ?_⟩, ?_⟩
          · show b2.width = t.buf.width
            omega
          · show b2.height = t.buf.height
            omega
          · intro hs
            obtain ⟨hwf, hr1, hc1, hr2, hc2⟩ := hs
            obtain ⟨hwf1, _, _, _, _, _, _, _⟩ :=
              TextBufferCache.writePhys_spec hw1 hwf
            obtain ⟨hwf2, _, _, _, _, _, _, _⟩ :=
              TextBufferCache.writePhys_spec hw2 hwf1
            exact ⟨hwf2,
              by show t.cursor.row ≤ b2.height; omega,
              by show t.cursor.col ≤ b2.width; omega,
              by show t.savedCursor.row ≤ b2.height; omega,
              by show t.savedCursor.col ≤ b2.width; omega⟩

theorem pres_clearLineMode (mode : LineClearMode) :
    Pres (fun s => clearLineMode s mode) := by
  intro s s' h
  rcases mode with _ | _ | _ <;>
    simp only [clearLineMode] at h <;>
    exact pres_foldlM
      (fun i => withBuf_write_pres (fun st => st.cursor.row) (fun _ => i)
        (fun _ => s.temp.bgOnly)) _ s s' h

theorem pres_clearScreen (mode : ClearMode) :
    Pres (fun s => clearScreen s mode) := by
  intro s s' h
  rcases mode with _ | _ | _ | _
  · -- Below
    simp only [clearScreen] at h
    rcases h1 : (List.range' s.cursor.col (s.buf.width - s.cursor.col)).foldlM
        (fun st j => (st.buf.write s.cursor.row j s.temp.bgOnly).map st.withBuf)
        s with _ | s1
    · rw [h1] at h; cases h
    · rw [h1, Option.some_bind] at h
      obtain ⟨⟨hw1, hh1⟩, hi1⟩ := pres_foldlM
        (fun j => withBuf_write_pres (fun _ => s.cursor.row) (fun _ => j)
          (fun _ => s.temp.bgOnly)) _ s s1 h1
      obtain ⟨⟨hw2, hh2⟩, hi2⟩ := pres_foldlM
        (fun i => by
          intro t t' ht
          exact pres_foldlM
            (fun j => withBuf_write_pres (fun _ => i) (fun _ => j)
              (fun _ => s.temp.bgOnly)) _ t t' ht) _ s1 s' h
      exact ⟨⟨by omega, by omega⟩, fun hs => hi2 (hi1 hs)⟩
  · -- Above
    simp only [clearScreen] at h
    rcases h1 : (List.range s.cursor.row).foldlM
        (fun (st : ConsoleInner) i =>
          (List.range st.buf.width).foldlM
            (fun st2 j => (st2.buf.write i j s.temp.bgOnly).map st2.withBuf) st)
        s with _ | s1
    · rw [h1] at h; cases h
    · rw [h1, Option.some_bind] at h
      obtain ⟨⟨hw1, hh1⟩, hi1⟩ := pres_foldlM
        (fun i => by
          intro t t' ht
          exact pres_foldlM
            (fun j => withBuf_write_pres (fun _ => i) (fun _ => j)
              (fun _ => s.temp.bgOnly)) _ t t' ht) _ s s1 h1
      obtain ⟨⟨hw2, hh2⟩, hi2⟩ := pres_foldlM
        (fun j => withBuf_write_pres (fun _ => s.cursor.row) (fun _ => j)
          (fun _ => s.temp.bgOnly)) _ s1 s' h
      exact ⟨⟨by omega, by omega⟩, fun hs => hi2 (hi1 hs)⟩
  · -- All
    simp only [clearScreen] at h
    obtain rfl := Option.some.inj h
    refine ⟨⟨rfl, rfl⟩, ?_⟩
    intro hs
    refine ⟨⟨hs.1.1, fun i rl hrl => hs.1.2 i rl hrl⟩, ?_, ?_, hs.2.2.2⟩
    · show (0 : Nat) ≤ s.buf.height
      omega
    · show (0 : Nat) ≤ s.buf.width
      omega
  · -- Saved
    obtain rfl := Option.some.inj h
    exact ⟨⟨rfl, rfl⟩, id⟩

theorem terminalAttribute_fields (s : ConsoleInner) (a : Attr) :
    (s.terminalAttribute a).cursor = s.cursor ∧
      (s.terminalAttribute a).savedCursor = s.savedCursor ∧
      (s.terminalAttribute a).buf = s.buf ∧
      (s.terminalAttribute a).autoWrap = s.autoWrap ∧
      (s.terminalAttribute a).report = s.report := by
  cases a <;> exact ⟨rfl, rfl, rfl, rfl, rfl⟩

theorem pres_terminalAttribute (a : Attr) :
    Pres (fun s => some (s.terminalAttribute a)) := by
  intro s s' h
  obtain rfl := Option.some.inj h
  obtain ⟨hc, hsv, hb, _, _⟩ := terminalAttribute_fields s a
  refine ⟨⟨by rw [hb], by rw [hb]⟩, ?_⟩
  intro hs
  obtain ⟨hwf, h1, h2, h3, h4⟩ := hs
  rw [Inv, hc, hsv, hb]
  exact ⟨hwf, h1, h2, h3, h4⟩

theorem sgrLoopCore_cons (fuel : Nat) (s : ConsoleInner) (p : List Nat)
    (rest : List (List Nat)) :
    sgrLoopCore (fuel + 1) s (p :: rest) =
      match (sgrAttr p rest).1 with
      | some a => sgrLoopCore fuel (s.terminalAttribute a) (sgrAttr p rest).2
      | none => sgrLoopCore fuel s (sgrAttr p rest).2 := rfl

theorem sgrLoopCore_fields :
    ∀ (fuel : Nat) (s : ConsoleInner) (ps : List (List Nat)),
      (sgrLoopCore fuel s ps).cursor = s.cursor ∧
        (sgrLoopCore fuel s ps).savedCursor = s.savedCursor ∧
        (sgrLoopCore fuel s ps).buf = s.buf := by
  intro fuel
  induction fuel with
  | zero => exact fun s ps => ⟨rfl, rfl, rfl⟩
  | succ fuel ih =>
    intro s ps
    rcases ps with _ | ⟨p, rest⟩
    · exact ⟨rfl, rfl, rfl⟩
    · rw [sgrLoopCore_cons]
      rcases ha : (sgrAttr p rest).1 with _ | a
      · simp only
        exact ih s (sgrAttr p rest).2
      · simp only
        obtain ⟨hc, hsv, hb⟩ := ih (s.terminalAttribute a) (sgrAttr p rest).2
        obtain ⟨hc', hsv', hb', _, _⟩ := terminalAttribute_fields s a
        exact ⟨by rw [hc, hc'], by rw [hsv, hsv'], by rw [hb, hb']⟩

theorem pres_sgrLoop (ps : List (List Nat)) :
    Pres (fun s => some (s.sgrLoop ps)) := by
  intro s s' h
  obtain rfl := Option.some.inj h
  obtain ⟨hc, hsv, hb⟩ := sgrLoopCore_fields (ps.length + 1) s ps
  refine ⟨⟨by rw [sgrLoop, hb], by rw [sgrLoop, hb]⟩, ?_⟩
  intro hs
  obtain ⟨hwf, h1, h2, h3, h4⟩ := hs
  rw [Inv, sgrLoop, hc, hsv, hb]
  exact ⟨hwf, h1, h2, h3, h4⟩

theorem setMode_fields (s : ConsoleInner) (m : Mode) :
    (s.setMode m).cursor = s.cursor ∧
      (s.setMode m).savedCursor = s.savedCursor ∧ (s.setMode m).buf = s.buf := by
  rw [setMode]
  split <;> exact ⟨rfl, rfl, rfl⟩

theorem unsetMode_fields (s : ConsoleInner) (m : Mode) :
    (s.unsetMode m).cursor = s.cursor ∧
      (s.unsetMode m).savedCursor = s.savedCursor ∧
      (s.unsetMode m).buf = s.buf := by
  rw [unsetMode]
  split <;> exact ⟨rfl, rfl, rfl⟩

theorem modeLoop_cons (setIt : Bool) (s : ConsoleInner) (ints : List Nat)
    (p : List Nat) (rest : List (List Nat)) :
    modeLoop setIt s ints (p :: rest) =
      modeLoop setIt
        (match Mode.fromPrimitive ints.head? (paramHead p) with
          | some mode => if setIt then s.setMode mode else s.unsetMode mode
          | none => s) ints rest := by
  rw [modeLoop, modeLoop, List.foldl_cons]

theorem modeLoop_fields (setIt : Bool) (ints : List Nat) :
    ∀ (ps : List (List Nat)) (s : ConsoleInner),
      (modeLoop setIt s ints ps).cursor = s.cursor ∧
        (modeLoop setIt s ints ps).savedCursor = s.savedCursor ∧
        (modeLoop setIt s ints ps).buf = s.buf := by
  intro ps
  induction ps with
  | nil => exact fun s => ⟨rfl, rfl, rfl⟩
  | cons p rest ih =>
    intro s
    rw [modeLoop_cons]
    rcases hm : Mode.fromPrimitive ints.head? (paramHead p) with _ | mode
    · simp only
      exact ih s
    · simp only
      rcases setIt with _ | _
      · simp only [Bool.false_eq_true, reduceIte]
        obtain ⟨hc, hsv, hb⟩ := ih (s.unsetMode mode)
        obtain ⟨hc', hsv', hb'⟩ := unsetMode_fields s mode
        exact ⟨by rw [hc, hc'], by rw [hsv, hsv'], by rw [hb, hb']⟩
      · simp only [reduceIte]
        obtain ⟨hc, hsv, hb⟩ := ih (s.setMode mode)
        obtain ⟨hc', hsv', hb'⟩ := setMode_fields s mode
        exact ⟨by rw [hc, hc'], by rw [hsv, hsv'], by rw [hb, hb']⟩

theorem pres_modeLoop (setIt : Bool) (ints : List Nat) (ps : List (List Nat)) :
    Pres (fun s => some (modeLoop setIt s ints ps)) := by
  intro s s' h
  obtain rfl := Option.some.inj h
  obtain ⟨hc, hsv, hb⟩ := modeLoop_fields setIt ints ps s
  refine ⟨⟨by rw [hb], by rw [hb]⟩, ?_⟩
  intro hs
  obtain ⟨hwf, h1, h2, h3, h4⟩ := hs
  rw [Inv, hc, hsv, hb]
  exact ⟨hwf, h1, h2, h3, h4⟩

theorem pres_deviceStatus (arg : Nat) :
    Pres (fun s => some (s.deviceStatus arg)) := by
  intro s s' h
  obtain rfl := Option.some.inj h
  rw [deviceStatus]
  split
  · exact ⟨⟨rfl, rfl⟩, fun hs => hs⟩
  · split
    · exact ⟨⟨rfl, rfl⟩, fun hs => hs⟩
    · exact ⟨⟨rfl, rfl⟩, fun hs => hs⟩

theorem pres_escDispatch (ints : List Nat) (b : Nat) :
    Pres (fun s => some (s.escDispatch ints b)) := by
  intro s s' h
  obtain rfl := Option.some.inj h
  rw [escDispatch]
  split
  · exact ⟨⟨rfl, rfl⟩, fun hs => ⟨hs.1, hs.2.1, hs.2.2.1, hs.2.1, hs.2.2.1⟩⟩
  · split
    · exact ⟨⟨rfl, rfl⟩,
        fun hs => ⟨hs.1, hs.2.2.2.1, hs.2.2.2.2, hs.2.2.2.1, hs.2.2.2.2⟩⟩
    · exact ⟨⟨rfl, rfl⟩, fun hs => hs⟩

theorem pres_execute (b : Nat) : Pres (fun s => execute s b) := by
  intro s s' h
  simp only [execute] at h
  split at h
  · exact pres_putTab 1 s s' h
  · split at h
    · obtain rfl := Option.some.inj h
      rw [backspace]
      split
      · exact ⟨⟨rfl, rfl⟩, fun hs => ⟨hs.1, hs.2.1, by
          show s.cursor.col - 1 ≤ s.buf.width
          obtain ⟨_, _, h2, _, _⟩ := hs
          omega, hs.2.2.2⟩⟩
      · exact ⟨⟨rfl, rfl⟩, fun hs => hs⟩
    · split at h
      · obtain rfl := Option.some.inj h
        exact ⟨⟨rfl, rfl⟩, fun hs => ⟨hs.1, hs.2.1, by
          show (0 : Nat) ≤ s.buf.width
          omega, hs.2.2.2⟩⟩
      · split at h
        · exact pres_linefeed s s' h
        · obtain rfl := Option.some.inj h
          exact ⟨⟨rfl, rfl⟩, fun hs => hs⟩

theorem pres_moveUp (rows : Nat) : Pres (fun s => some (s.moveUp rows)) := by
  intro s s' h
  obtain rfl := Option.some.inj h
  exact pres_goto _ _ s _ rfl

theorem pres_moveUpAndCr (rows : Nat) :
    Pres (fun s => some (s.moveUpAndCr rows)) := by
  intro s s' h
  obtain rfl := Option.some.inj h
  exact pres_goto _ _ s _ rfl

theorem pres_gotoLine (row : Nat) : Pres (fun s => some (s.gotoLine row)) := by
  intro s s' h
  obtain rfl := Option.some.inj h
  exact pres_goto _ _ s _ rfl

theorem pres_gotoCol (col : Nat) : Pres (fun s => some (s.gotoCol col)) := by
  intro s s' h
  obtain rfl := Option.some.inj h
  exact pres_goto _ _ s _ rfl

theorem pres_moveDown (rows : Nat) : Pres (fun s => s.moveDown rows) := by
  intro s s' h
  simp only [moveDown, Option.map_eq_some'] at h
  obtain ⟨hm1, _, hs'⟩ := h
  subst hs'
  exact pres_goto _ _ s _ rfl

theorem pres_moveDownAndCr (rows : Nat) :
    Pres (fun s => s.moveDownAndCr rows) := by
  intro s s' h
  simp only [moveDownAndCr, Option.map_eq_some'] at h
  obtain ⟨hm1, _, hs'⟩ := h
  subst hs'
  exact pres_goto _ _ s _ rfl

theorem pres_moveForward (cols : Nat) : Pres (fun s => s.moveForward cols) := by
  intro s s' h
  simp only [moveForward, Option.map_eq_some'] at h
  obtain ⟨wm1, hsub, hs'⟩ := h
  have hw : s.buf.width = wm1 + 1 := by
    simp only [usizeSub] at hsub
    split at hsub
    · cases hsub; omega
    · cases hsub
  subst hs'
  refine ⟨⟨rfl, rfl⟩, fun hs => ⟨hs.1, hs.2.1, ?_, hs.2.2.2⟩⟩
  show min (s.cursor.col + cols) wm1 ≤ s.buf.width
  omega

theorem pres_moveBackward (cols : Nat) :
    Pres (fun s => some (s.moveBackward cols)) := by
  intro s s' h
  obtain rfl := Option.some.inj h
  refine ⟨⟨rfl, rfl⟩, fun hs => ⟨hs.1, hs.2.1, ?_, hs.2.2.2⟩⟩
  show s.cursor.col - cols ≤ s.buf.width
  obtain ⟨_, _, h2, _, _⟩ := hs
  omega

theorem pres_csiDispatch (params : List (List Nat)) (ints : List Nat)
    (ign : Bool) (action : Char) :
    Pres (fun s => csiDispatch s params ints ign action) := by
  intro s s' h
  unfold csiDispatch at h
  beta_reduce at h
  by_cases g0 : (ign = true) ∨ 1 < ints.length
  · rw [if_pos g0] at h
    obtain rfl := Option.some.inj h
    exact ⟨⟨rfl, rfl⟩, id⟩
  rw [if_neg g0] at h
  by_cases g1 : action = 'A' ∧ ints.isEmpty = true
  · rw [if_pos g1] at h
    exact pres_moveUp _ s s' h
  rw [if_neg g1] at h
  by_cases g2 : (action = 'B' ∨ action = 'e') ∧ ints.isEmpty = true
  · rw [if_pos g2] at h
    exact pres_moveDown _ s s' h
  rw [if_neg g2] at h
  by_cases g3 : (action = 'C' ∨ action = 'a') ∧ ints.isEmpty = true
  · rw [if_pos g3] at h
    exact pres_moveForward _ s s' h
  rw [if_neg g3] at h
  by_cases g4 : action = 'D' ∧ ints.isEmpty = true
  · rw [if_pos g4] at h
    exact pres_moveBackward _ s s' h
  rw [if_neg g4] at h
  by_cases g5 : action = 'E' ∧ ints.isEmpty = true
  · rw [if_pos g5] at h
    exact pres_moveDownAndCr _ s s' h
  rw [if_neg g5] at h
  by_cases g6 : action = 'F' ∧ ints.isEmpty = true
  · rw [if_pos g6] at h
    exact pres_moveUpAndCr _ s s' h
  rw [if_neg g6] at h
  by_cases g7 : (action = 'G' ∨ action = '`') ∧ ints.isEmpty = true
  · rw [if_pos g7] at h
    exact pres_gotoCol _ s s' h
  rw [if_neg g7] at h
  by_cases g8 : (action = 'H' ∨ action = 'f') ∧ ints.isEmpty = true
  · rw [if_pos g8] at h
    exact pres_goto _ _ s s' h
  rw [if_neg g8] at h
  by_cases g9 : action = 'J' ∧ ints.isEmpty = true
  · rw [if_pos g9] at h
    rcases hv : (nextParamOr params 0).1 with _ | _ | _ | _ | n
    all_goals rw [hv] at h
    · exact pres_clearScreen ClearMode.Below s s' h
    · exact pres_clearScreen ClearMode.Above s s' h
    · exact pres_clearScreen ClearMode.All s s' h
    · exact pres_clearScreen ClearMode.Saved s s' h
    · obtain rfl := Option.some.inj h
      exact ⟨⟨rfl, rfl⟩, id⟩
  rw [if_neg g9] at h
  by_cases g10 : action = 'K' ∧ ints.isEmpty = true
  · rw [if_pos g10] at h
    rcases hv : (nextParamOr params 0).1 with _ | _ | _ | n
    all_goals rw [hv] at h
    · exact pres_clearLineMode LineClearMode.Right s s' h
    · exact pres_clearLineMode LineClearMode.Left s s' h
    · exact pres_clearLineMode LineClearMode.All s s' h
    · obtain rfl := Option.some.inj h
      exact ⟨⟨rfl, rfl⟩, id⟩
  rw [if_neg g10] at h
  by_cases g11 : action = 'P' ∧ ints.isEmpty = true
  · rw [if_pos g11] at h
    exact pres_deleteChars _ s s' h
  rw [if_neg g11] at h
  by_cases g12 : (action = 'S' ∨ action = 'T') ∧ ints.isEmpty = true
  · rw [if_pos g12] at h
    obtain rfl := Option.some.inj h
    exact ⟨⟨rfl, rfl⟩, id⟩
  rw [if_neg g12] at h
  by_cases g13 : action = 'X' ∧ ints.isEmpty = true
  · rw [if_pos g13] at h
    exact pres_eraseChars _ s s' h
  rw [if_neg g13] at h
  by_cases g14 : action = 'd' ∧ ints.isEmpty = true
  · rw [if_pos g14] at h
    exact pres_gotoLine _ s s' h
  rw [if_neg g14] at h
  by_cases g15 : action = 'h'
  · rw [if_pos g15] at h
    exact pres_modeLoop true ints params s s' h
  rw [if_neg g15] at h
  by_cases g16 : action = 'l'
  · rw [if_pos g16] at h
    exact pres_modeLoop false ints params s s' h
  rw [if_neg g16] at h
  by_cases g17 : action = 'm'
  · rw [if_pos g17] at h
    by_cases g17e : params.isEmpty = true
    · rw [if_pos g17e] at h
      exact pres_terminalAttribute Attr.Reset s s' h
    · rw [if_neg g17e] at h
      exact pres_sgrLoop params s s' h
  rw [if_neg g17] at h
  by_cases g18 : action = 'n' ∧ ints.isEmpty = true
  · rw [if_pos g18] at h
    exact pres_deviceStatus _ s s' h
  rw [if_neg g18] at h
  by_cases g19 : action = 'r' ∧ ints.isEmpty = true
  · rw [if_pos g19] at h
    obtain rfl := Option.some.inj h
    exact ⟨⟨rfl, rfl⟩, id⟩
  rw [if_neg g19] at h
  obtain rfl := Option.some.inj h
  exact ⟨⟨rfl, rfl⟩, id⟩

end ConsoleInner

/-- Console-level preservation: dimensions are stable under write_byte
and the cursor-bounds invariant is maintained. -/
theorem writeByte_pres {c c' : Console} {b : Nat} (h : writeByte c b = some c') :
    (c'.inner.buf.width = c.inner.buf.width ∧
      c'.inner.buf.height = c.inner.buf.height) ∧
      (c.inner.Inv → c'.inner.Inv) := by
  rw [writeByte] at h
  rcases hadv : c.p.advance b with ⟨p', d⟩
  rw [hadv] at h
  rcases d with _ | d
  · obtain rfl := Option.some.inj h
    exact ⟨⟨rfl, rfl⟩, id⟩
  · simp only [Option.map_eq_some'] at h
    obtain ⟨i, hi, hc'⟩ := h
    subst hc'
    rcases d with ch | eb | ⟨ps, ints, ign, a⟩ | ⟨ints, eb⟩
    · exact ConsoleInner.pres_input ch _ _ hi
    · exact ConsoleInner.pres_execute eb _ _ hi
    · exact ConsoleInner.pres_csiDispatch ps ints ign a _ _ hi
    · exact ConsoleInner.pres_escDispatch ints eb _ _ hi

/-- writeBytes preserves dimensions and the invariant. -/
theorem writeBytes_pres :
    ∀ (bs : List Nat) (c c' : Console), writeBytes c bs = some c' →
      (c'.inner.buf.width = c.inner.buf.width ∧
        c'.inner.buf.height = c.inner.buf.height) ∧
        (c.inner.Inv → c'.inner.Inv) := by
  intro bs
  induction bs with
  | nil =>
    intro c c' h
    cases h
    exact ⟨⟨rfl, rfl⟩, id⟩
  | cons b rest ih =>
    intro c c' h
    rw [writeBytes, foldlM_cons_option] at h
    rcases hb : writeByte c b with _ | c1
    · rw [hb] at h; cases h
    · rw [hb, Option.some_bind] at h
      obtain ⟨⟨hw1, hh1⟩, hi1⟩ := writeByte_pres hb
      obtain ⟨⟨hw2, hh2⟩, hi2⟩ := ih c1 c' h
      exact ⟨⟨by omega, by omega⟩, fun hs => hi2 (hi1 hs)⟩

/-- A fresh console satisfies the invariant. -/
theorem mkConsole_Inv (w h : Nat) : (mkConsole w h).inner.Inv :=
  ⟨TextBufferCache.create_WF w h, Nat.zero_le _, Nat.zero_le _,
    Nat.zero_le _, Nat.zero_le _⟩

namespace ConsoleInner

theorem sameConsole_refl (s : ConsoleInner) : SameConsole s s :=
  ⟨rfl, rfl, rfl, rfl, rfl⟩

theorem sameGeo_refl (s : ConsoleInner) : SameGeo s s := ⟨rfl, rfl, rfl⟩

theorem SameConsole.chain {s1 s2 s3 : ConsoleInner}
    (h1 : SameConsole s1 s2) (h2 : SameConsole s2 s3) : SameConsole s1 s3 := by
  obtain ⟨a1, b1, c1, d1, e1⟩ := h1
  obtain ⟨a2, b2, c2, d2, e2⟩ := h2
  exact ⟨a2.trans a1, b2.trans b1, c2.trans c1, d2.trans d1, e2.trans e1⟩

theorem SameGeo.chainGeo {s1 s2 s3 : ConsoleInner}
    (h1 : SameGeo s1 s2) (h2 : SameGeo s2 s3) : SameGeo s1 s3 := by
  obtain ⟨a1, b1, c1⟩ := h1
  obtain ⟨a2, b2, c2⟩ := h2
  exact ⟨a2.trans a1, b2.trans b1, c2.trans c1⟩

/-- Geometry equality keeps `realRow` pointwise. -/
theorem SameGeo.realRow_eq {s s' : ConsoleInner} (h : SameGeo s s')
    (r : Nat) : s'.buf.realRow r = s.buf.realRow r := by
  unfold TextBufferCache.realRow
  rw [h.2.2, h.2.1]

/-- Effect of a column loop `[a, a + k)` writing `bg` at fixed logical
row `r0` through the cache. -/
theorem rowFillFixed (r0 : Nat) (bg : Cell) :
    ∀ (k a : Nat) (s : ConsoleInner), s.buf.WF → 0 < s.buf.height →
      a + k ≤ s.buf.width →
      ∃ s', (List.range' a k).foldlM
          (fun st j => (st.buf.write r0 j bg).map st.withBuf) s = some s' ∧
        SameConsole s s' ∧ SameGeo s s' ∧ s'.buf.WF ∧
        ∀ r c, s'.buf.cellAt r c =
          if r = s.buf.realRow r0 ∧ a ≤ c ∧ c < a + k then some bg
          else s.buf.cellAt r c := by
  intro k
  induction k with
  | zero =>
    intro a s hwf hh hak
    refine ⟨s, rfl, sameConsole_refl s, sameGeo_refl s, hwf, ?_⟩
    intro r c
    rw [if_neg (by omega)]
  | succ k ih =>
    intro a s hwf hh hak
    obtain ⟨b, hb⟩ := TextBufferCache.writePhys_exists
      s.buf (s.buf.realRow r0) a bg hwf
      (TextBufferCache.realRow_lt _ _ hh) (by omega)
    obtain ⟨hwfb, hwb, hhb, hrob, _, _, _, hcellb⟩ :=
      TextBufferCache.writePhys_spec hb hwf
    have hstep : (s.buf.write r0 a bg).map s.withBuf =
        some (s.withBuf b) := by
      show (s.buf.writePhys (s.buf.realRow r0) a bg).map s.withBuf = _
      rw [hb, Option.map_some']
    have hgeo1 : SameGeo s (s.withBuf b) := ⟨hwb, hhb, hrob⟩
    obtain ⟨s', hfold, hsc, hgeo2, hwf', hcell'⟩ :=
      ih (a + 1) (s.withBuf b) hwfb (by
        show 0 < b.height
        omega) (by
        show a + 1 + k ≤ b.width
        omega)
    refine ⟨s', ?_, ?_, hgeo1.chainGeo hgeo2, hwf', ?_⟩
    · show (List.range' a (k + 1)).foldlM
          (fun st j => (st.buf.write r0 j bg).map st.withBuf) s = some s'
      rw [List.range'_succ, foldlM_cons_option, hstep, Option.some_bind]
      exact hfold
    · exact SameConsole.chain ⟨rfl, rfl, rfl, rfl, rfl⟩ hsc
    · intro r c
      have hrr : (s.withBuf b).buf.realRow r0 = s.buf.realRow r0 :=
        hgeo1.realRow_eq r0
      rw [hcell' r c, hrr]
      show _ = if r = s.buf.realRow r0 ∧ a ≤ c ∧ c < a + (k + 1) then some bg
        else s.buf.cellAt r c
      by_cases hr : r = s.buf.realRow r0
      · subst hr
        by_cases hc1 : a + 1 ≤ c ∧ c < a + 1 + k
        · rw [if_pos ⟨rfl, hc1.1, hc1.2⟩, if_pos ⟨rfl, by omega, by omega⟩]
        · rw [if_neg (by omega)]
          show b.cellAt _ c = _
          rw [hcellb _ c]
          by_cases hc2 : c = a
          · rw [if_pos ⟨rfl, hc2⟩, if_pos ⟨rfl, by omega, by omega⟩]
          · rw [if_neg (by simp [hc2]), if_neg (by omega)]
      · rw [if_neg (by simp [hr]), if_neg (by simp [hr])]
        show b.cellAt r c = _
        rw [hcellb r c, if_neg (by simp [hr])]

/-- Effect of the row loop `[a, a + k)` of ED-above: each full row is
filled with `bg` through the cache at logical coordinates. -/
theorem rowsFill (bg : Cell) :
    ∀ (k a : Nat) (s : ConsoleInner), s.buf.WF → 0 < s.buf.height →
      a + k ≤ s.buf.height →
      ∃ s', (List.range' a k).foldlM
          (fun (st : ConsoleInner) i =>
            (List.range st.buf.width).foldlM
              (fun st2 j => (st2.buf.write i j bg).map st2.withBuf) st) s =
          some s' ∧
        SameConsole s s' ∧ SameGeo s s' ∧ s'.buf.WF ∧
        ∀ r c, r < s.buf.height →
          s'.buf.read r c =
            if a ≤ r ∧ r < a + k ∧ c < s.buf.width then some bg
            else s.buf.read r c := by
  intro k
  induction k with
  | zero =>
    intro a s hwf hh hak
    refine ⟨s, rfl, sameConsole_refl s, sameGeo_refl s, hwf, ?_⟩
    intro r c hr
    rw [if_neg (by omega)]
  | succ k ih =>
    intro a s hwf hh hak
    obtain ⟨s1, hfold1, hsc1, hgeo1, hwf1, hcell1⟩ :=
      rowFillFixed a bg s.buf.width 0 s hwf hh (by omega)
    have hfold1' : (List.range s.buf.width).foldlM
        (fun st2 j => (st2.buf.write a j bg).map st2.withBuf) s = some s1 := by
      rw [List.range_eq_range']
      exact hfold1
    obtain ⟨s', hfold2, hsc2, hgeo2, hwf', hcell2⟩ :=
      ih (a + 1) s1 hwf1 (by
        have := hgeo1.2.1
        omega) (by
        have := hgeo1.2.1
        omega)
    refine ⟨s', ?_, hsc1.chain hsc2, hgeo1.chainGeo hgeo2, hwf', ?_⟩
    · show (List.range' a (k + 1)).foldlM _ s = some s'
      rw [List.range'_succ, foldlM_cons_option]
      rw [show ((List.range s.buf.width).foldlM
          (fun st2 j => (st2.buf.write a j bg).map st2.withBuf) s) =
          some s1 from hfold1']
      rw [Option.some_bind]
      exact hfold2
    · intro r c hr
      have hh1 := hgeo1.2.1
      have hw1 := hgeo1.1
      rw [hcell2 r c (by omega)]
      have hread1 : ∀ c', s1.buf.read r c' =
          if r = a ∧ c' < s.buf.width then some bg else s.buf.read r c' := by
        intro c'
        show s1.buf.cellAt (s1.buf.realRow r) c' = _
        rw [hgeo1.realRow_eq r, hcell1 _ c']
        by_cases hcase : s.buf.realRow r = s.buf.realRow a ∧ c' < s.buf.width
        · have hra : r = a := by
            rcases hcase with ⟨hreq, _⟩
            exact TextBufferCache.realRow_inj hr (by omega) hreq
          rw [if_pos ⟨hcase.1, by omega, by
            show c' < 0 + s.buf.width
            omega⟩, if_pos ⟨hra, hcase.2⟩]
        · rw [if_neg (by
            intro hand
            exact hcase ⟨hand.1, by omega⟩), if_neg (by
            intro hand
            exact hcase ⟨by rw [hand.1], hand.2⟩)]
          rfl
      rw [hw1, hread1 c]
      by_cases h1 : a + 1 ≤ r ∧ r < a + 1 + k ∧ c < s.buf.width
      · rw [if_pos h1, if_pos ⟨by omega, by omega, h1.2.2⟩]
      · rw [if_neg (by omega)]
        by_cases h2 : r = a ∧ c < s.buf.width
        · rw [if_pos h2, if_pos ⟨by omega, by omega, h2.2⟩]
        · rw [if_neg h2, if_neg (by
            intro hand
            rcases hand with ⟨ha1, ha2, ha3⟩
            rcases Nat.lt_or_ge r (a + 1) with hcase | hcase
            · exact h2 ⟨by omega, ha3⟩
            · exact h1 ⟨by omega, by omega, ha3⟩)]

end ConsoleInner

/-! ## Claim theorems -/

/-- C1, counterexample: the claimed invariant `cursor.row < height` is
false.  Feeding the CUP sequence ESC [ 99 ; 1 H to a fresh 4-wide
2-high console leaves `cursor.row = 2 = height`, because `goto` clamps
the row with `min(row, height)` rather than `min(row, height - 1)`. -/
theorem cup_row_reaches_height :
    ((writeBytes (mkConsole 4 2) [0x1b, 0x5b, 0x39, 0x39, 0x3b, 0x31, 0x48]).map
      fun c => decide (c.inner.cursor.row < c.inner.buf.height)) =
      some false := by decide

/-- C1, amended: after every successful write_byte sequence from a fresh
console, `cursor.row ≤ height` and `cursor.col ≤ width` (the row bound is
inclusive: `row = height` is reachable through CUP); CUP's `goto` sets
the cursor to `(min(p1-1, height), min(p2-1, width))`. -/
theorem cursor_row_le_height_col_le_width (w h : Nat) (bs : List Nat)
    (c : Console) (hc : writeBytes (mkConsole w h) bs = some c) :
    (c.inner.cursor.row ≤ h ∧ c.inner.cursor.col ≤ w) ∧
      ∀ (s : ConsoleInner) (row col : Nat),
        (s.goto row col).cursor.row = min row s.buf.height ∧
          (s.goto row col).cursor.col = min col s.buf.width := by
  obtain ⟨⟨hw, hh⟩, hi⟩ := writeBytes_pres bs _ c hc
  have hw' : c.inner.buf.width = w := hw
  have hh' : c.inner.buf.height = h := hh
  obtain ⟨_, h1, h2, _, _⟩ := hi (mkConsole_Inv w h)
  exact ⟨⟨by omega, by omega⟩, fun s row col => ⟨rfl, rfl⟩⟩

/-- C1, witness for the amended invariant at a concrete input. -/
theorem cursor_row_le_height_col_le_width_witness :
    writeBytes (mkConsole 4 2) [] = some (mkConsole 4 2) ∧
      (((mkConsole 4 2).inner.cursor.row ≤ 2 ∧
          (mkConsole 4 2).inner.cursor.col ≤ 4) ∧
        ∀ (s : ConsoleInner) (row col : Nat),
          (s.goto row col).cursor.row = min row s.buf.height ∧
            (s.goto row col).cursor.col = min col s.buf.width) :=
  ⟨rfl, cursor_row_le_height_col_le_width 4 2 [] (mkConsole 4 2) rfl⟩

/-- C2: the code can panic.  On a 2-wide console with the cursor at
`col = width = 2` (after printing two characters), EL-left (CSI 1 K)
indexes the cache row at column 2 (the loop is `0..=col`), an
out-of-range `Vec` index; and DCH (CSI 1 P) computes
`columns - col - 1 = 2 - 2 - 1`, an unsigned-subtraction underflow.
Both evaluate to `none` (a panic) in the embedding. -/
theorem el_left_and_dch_at_right_margin_panic :
    writeBytes (mkConsole 2 1) [97, 98, 0x1b, 0x5b, 0x31, 0x4b] = none ∧
      writeBytes (mkConsole 2 1) [97, 98, 0x1b, 0x5b, 0x31, 0x50] = none := by
  decide

/-- C4: after `clear`, the cache serves stale reads.  Feeding
`a` then ESC [ 2 J to a fresh 1×1 console clears the inner renderer and
resets `row_offset`, but `TextBufferCache::clear` never touches its RAM
store, so `read(0,0)` still returns the `a` cell instead of the erase
cell that was passed to `clear`. -/
theorem clear_leaves_stale_cache_read :
    ((writeBytes (mkConsole 1 1) [97, 0x1b, 0x5b, 0x32, 0x4a]).map
        fun c => decide (c.inner.buf.read 0 0 = some (c.inner.temp.bgOnly))) =
      some false ∧
      ((writeBytes (mkConsole 1 1) [97, 0x1b, 0x5b, 0x32, 0x4a]).map
        fun c => c.inner.buf.read 0 0) =
        some (some { Cell.default with c := 'a' }) := by decide

/-- C5, counterexample: with `row_offset = 1` (after one `new_line` on a
1×2 cache), `write(0, 0, cell)` forwards to the inner renderer with row
argument 1, not the logical row 0 the claim requires. -/
theorem cache_write_forwards_physical_row_cex :
    (((TextBufferCache.create 1 2).newLine Cell.default).bind
        fun b => (b.write 0 0 Cell.default).map
          fun b' => b'.trace.drop b.trace.length) =
        some [InnerOp.write 1 0 Cell.default] ∧
      some [InnerOp.write 1 0 Cell.default] ≠
        some [InnerOp.write 0 0 Cell.default] := by decide

/-- C5, amended: every successful `TextBufferCache::write(r, c, cell)`
forwards exactly one `write` call to the inner renderer, at the physical
row `(row_offset + r) % height` (which equals `r` only when the offset
is zero), the same column, and the same cell. -/
theorem cache_write_inner_row_real (b b' : TextBufferCache) (r c : Nat)
    (cell : Cell) (h : b.write r c cell = some b') :
    b'.trace = b.trace ++
      [InnerOp.write ((b.rowOffset + r) % b.height) c cell] := by
  simp only [TextBufferCache.write, TextBufferCache.writePhys,
    Option.map_eq_some'] at h
  obtain ⟨m, _, hb'⟩ := h
  subst hb'
  rfl

/-- C5, witness at a concrete cache. -/
theorem cache_write_inner_row_real_witness :
    ((TextBufferCache.create 1 2).write 1 0 Cell.default).map
        TextBufferCache.trace =
      some ((TextBufferCache.create 1 2).trace ++
        [InnerOp.write (((TextBufferCache.create 1 2).rowOffset + 1) %
          (TextBufferCache.create 1 2).height) 0 Cell.default]) := by
  rcases hw : (TextBufferCache.create 1 2).write 1 0 Cell.default with _ | b'
  · exact absurd hw (by decide)
  · rw [Option.map_some', cache_write_inner_row_real _ _ 1 0 Cell.default hw]

/-- C8: feeding ESC [ 6 n to a fresh console enqueues exactly the bytes
1B 5B 31 3B 31 52, drained FIFO by pop_report with `none` afterwards;
in general DSR(6) appends ESC [ , the decimal digits of `row + 1`, a
semicolon, the decimal digits of `col + 1`, and `R`. -/
theorem dsr6_report_bytes :
    ((writeBytes (mkConsole 80 25) [0x1b, 0x5b, 0x36, 0x6e]).map
        fun c => popList c 7) =
      some [some 0x1b, some 0x5b, some 0x31, some 0x3b, some 0x31, some 0x52,
        none] ∧
      ∀ s : ConsoleInner, (s.deviceStatus 6).report =
        s.report ++ [0x1b, 0x5b] ++ ConsoleInner.decBytes (s.cursor.row + 1) ++
          [0x3b] ++ ConsoleInner.decBytes (s.cursor.col + 1) ++ [0x52] :=
  ⟨by decide, fun s => rfl⟩

/-- C9, counterexample: from the bottom row (row 1 of a 2-high console,
reached by a linefeed), CUD(1) clamps at the bottom and CUU(1) then
moves to row 0, not back to the starting row 1. -/
theorem cud_cuu_not_inverse_at_bottom :
    ((writeBytes (mkConsole 1 2) [0x0a]).map fun c => c.inner.cursor.row) =
        some 1 ∧
      ((writeBytes (mkConsole 1 2)
          [0x0a, 0x1b, 0x5b, 0x31, 0x42, 0x1b, 0x5b, 0x31, 0x41]).map
        fun c => c.inner.cursor.row) = some 0 := by decide

/-- C9, amended: CUD(n) then CUU(n) never changes the column (given
`col ≤ width` and a positive height), and returns the cursor to its
starting row whenever CUD does not clamp, i.e. whenever
`row + n ≤ height - 1`. -/
theorem cud_cuu_roundtrip (s : ConsoleInner) (n : Nat)
    (hh : 0 < s.buf.height) (hcol : s.cursor.col ≤ s.buf.width) :
    ∃ s1, s.moveDown n = some s1 ∧
      (s1.moveUp n).cursor.col = s.cursor.col ∧
      (s.cursor.row + n + 1 ≤ s.buf.height →
        (s1.moveUp n).cursor.row = s.cursor.row) := by
  refine ⟨s.goto (min (s.cursor.row + n) (s.buf.height - 1)) s.cursor.col,
    ?_, ?_, ?_⟩
  · simp only [ConsoleInner.moveDown, usizeSub]
    rw [if_pos (by omega)]
    rfl
  · show min (min s.cursor.col s.buf.width) s.buf.width = s.cursor.col
    omega
  · intro hle
    show min
      (min (min (s.cursor.row + n) (s.buf.height - 1)) s.buf.height - n)
      s.buf.height = s.cursor.row
    omega

/-- C9, witness at a concrete console. -/
theorem cud_cuu_roundtrip_witness :
    0 < (mkConsole 3 4).inner.buf.height ∧
      (mkConsole 3 4).inner.cursor.col ≤ (mkConsole 3 4).inner.buf.width ∧
      ∃ s1, (mkConsole 3 4).inner.moveDown 2 = some s1 ∧
        (s1.moveUp 2).cursor.col = (mkConsole 3 4).inner.cursor.col ∧
        ((mkConsole 3 4).inner.cursor.row + 2 + 1 ≤
            (mkConsole 3 4).inner.buf.height →
          (s1.moveUp 2).cursor.row = (mkConsole 3 4).inner.cursor.row) :=
  ⟨by decide, by decide,
    cud_cuu_roundtrip (mkConsole 3 4).inner 2 (by decide) (by decide)⟩

/-- C3, counterexample: feed `a`, LF, `b`, ESC [ 31 m (red foreground),
LF to a fresh 1×2 console.  The final LF happens at the bottom row.  The
claim then fails twice over: the logical top row holds the `b` cell, not
the erase cell (the code blanks the row that becomes the logical bottom),
and the blanked row holds the full style template (red foreground), not
the bg-only erase cell. -/
theorem linefeed_at_bottom_cex :
    ((writeBytes (mkConsole 1 2)
          [97, 0x0a, 98, 0x1b, 0x5b, 0x33, 0x31, 0x6d, 0x0a]).map
        fun c => decide
          (c.inner.buf.read 0 0 = some (c.inner.temp.bgOnly))) =
      some false ∧
      ((writeBytes (mkConsole 1 2)
            [97, 0x0a, 98, 0x1b, 0x5b, 0x33, 0x31, 0x6d, 0x0a]).map
          fun c => decide
            (c.inner.buf.read 1 0 = some (c.inner.temp.bgOnly))) =
        some false ∧
      ((writeBytes (mkConsole 1 2)
            [97, 0x0a, 98, 0x1b, 0x5b, 0x33, 0x31, 0x6d, 0x0a]).map
          fun c => decide (c.inner.buf.read 1 0 = some c.inner.temp)) =
        some true := by decide

/-- C3, amended: for a console in the parser's ground state whose cursor
sits on the bottom row, an LF byte advances `row_offset` by one modulo
the height, keeps the cursor row, resets the column, and fills the
logical bottom row with the current style template cell `temp` itself
(all template fields, not the bg-only erase cell). -/
theorem linefeed_at_bottom_scrolls (c : Console)
    (hg : c.p.mode = PMode.ground)
    (hwf : c.inner.buf.WF)
    (hro : c.inner.buf.rowOffset < c.inner.buf.height)
    (hrow : c.inner.cursor.row + 1 = c.inner.buf.height) :
    ∃ c', writeByte c 0x0a = some c' ∧
      c'.inner.buf.rowOffset =
        (c.inner.buf.rowOffset + 1) % c.inner.buf.height ∧
      c'.inner.cursor.row = c.inner.cursor.row ∧
      c'.inner.cursor.col = 0 ∧
      c'.inner.temp = c.inner.temp ∧
      ∀ col, col < c.inner.buf.width →
        c'.inner.buf.read (c.inner.buf.height - 1) col =
          some c.inner.temp := by
  have hadv : c.p.advance 0x0a = (c.p, some (Dispatch.exec 0x0a)) := by
    unfold VtParser.advance
    rw [hg]
    norm_num
  obtain ⟨b', hnl, hwf', hwb', hhb', hrob', hcellb'⟩ :=
    TextBufferCache.newLine_spec c.inner.buf c.inner.temp
      hwf hro
  have hlf : c.inner.linefeed =
      some { c.inner with
        cursor := { row := c.inner.cursor.row, col := 0 }, buf := b' } := by
    simp only [ConsoleInner.linefeed]
    have hsub : usizeSub c.inner.buf.height 1 =
        some (c.inner.buf.height - 1) := by
      unfold usizeSub
      rw [if_pos (by omega)]
    rw [hsub, Option.some_bind]
    rw [if_neg (by
      show ¬ c.inner.cursor.row < c.inner.buf.height - 1
      omega)]
    show (TextBufferCache.newLine c.inner.buf c.inner.temp).map _ = _
    rw [hnl, Option.map_some']
    rfl
  refine ⟨{ p := c.p, inner := { c.inner with
      cursor := { row := c.inner.cursor.row, col := 0 }, buf := b' } },
    ?_, ?_, rfl, rfl, rfl, ?_⟩
  · show writeByte c 0x0a = _
    unfold writeByte
    rw [hadv]
    show (applyDispatch c.inner (Dispatch.exec 0x0a)).map _ = _
    have hex : applyDispatch c.inner (Dispatch.exec 0x0a) =
        c.inner.linefeed := by
      show ConsoleInner.execute c.inner 0x0a = c.inner.linefeed
      unfold ConsoleInner.execute
      norm_num
    rw [hex, hlf, Option.map_some']
  · exact hrob'
  · intro col hcol
    show b'.cellAt (b'.realRow (c.inner.buf.height - 1)) col = _
    have hreal : b'.realRow (c.inner.buf.height - 1) =
        c.inner.buf.rowOffset := by
      unfold TextBufferCache.realRow
      rw [hrob', hhb']
      rw [Nat.mod_add_mod]
      have he : c.inner.buf.rowOffset + 1 + (c.inner.buf.height - 1) =
          c.inner.buf.rowOffset + c.inner.buf.height := by omega
      rw [he, Nat.add_mod_right, Nat.mod_eq_of_lt hro]
    rw [hreal, hcellb']
    rw [if_pos ⟨rfl, hcol⟩]

/-- C3, witness at a concrete console. -/
theorem linefeed_at_bottom_scrolls_witness :
    ((mkConsole 1 1).p.mode = PMode.ground ∧
        (mkConsole 1 1).inner.buf.rowOffset <
          (mkConsole 1 1).inner.buf.height ∧
        (mkConsole 1 1).inner.cursor.row + 1 =
          (mkConsole 1 1).inner.buf.height) ∧
      ∃ c', writeByte (mkConsole 1 1) 0x0a = some c' ∧
        c'.inner.buf.rowOffset =
          ((mkConsole 1 1).inner.buf.rowOffset + 1) %
            (mkConsole 1 1).inner.buf.height ∧
        c'.inner.cursor.row = (mkConsole 1 1).inner.cursor.row ∧
        c'.inner.cursor.col = 0 ∧
        c'.inner.temp = (mkConsole 1 1).inner.temp ∧
        ∀ col, col < (mkConsole 1 1).inner.buf.width →
          c'.inner.buf.read ((mkConsole 1 1).inner.buf.height - 1) col =
            some (mkConsole 1 1).inner.temp :=
  ⟨⟨rfl, by decide, by decide⟩,
    linefeed_at_bottom_scrolls (mkConsole 1 1) rfl
      (TextBufferCache.create_WF 1 1) (by decide) (by decide)⟩

/-- C7, counterexample: ED-above excludes the cursor column.  Feed `ab`,
CUP home (ESC [ 1 ; 1 H), then ESC [ 1 J to a 2×1 console: with the
cursor at column 0 the claim requires cell (0,0) to be erased, but the
code's `for j in 0..col` loop writes nothing on the cursor row, so
read(0,0) still returns the `a` cell. -/
theorem ed_above_excludes_cursor_cex :
    ((writeBytes (mkConsole 2 1)
          [97, 98, 0x1b, 0x5b, 0x31, 0x3b, 0x31, 0x48,
            0x1b, 0x5b, 0x31, 0x4a]).map
        fun c => decide
          (c.inner.buf.read 0 0 = some (c.inner.temp.bgOnly))) =
      some false ∧
      ((writeBytes (mkConsole 2 1)
            [97, 98, 0x1b, 0x5b, 0x31, 0x3b, 0x31, 0x48,
              0x1b, 0x5b, 0x31, 0x4a]).map
          fun c => c.inner.buf.read 0 0) =
        some (some { Cell.default with c := 'a' }) := by decide

/-- C7, amended: CSI 1 J (ED above) erases with the bg-only erase cell
every cell of every row strictly above the cursor row and, on the cursor
row, the columns `[0, cursor.col)` — excluding the cursor column; no
other cell, no cursor field, and no geometry changes. -/
theorem ed_above_spec (s : ConsoleInner)
    (hwf : s.buf.WF) (hh : 0 < s.buf.height)
    (hrow : s.cursor.row < s.buf.height)
    (hcol : s.cursor.col ≤ s.buf.width) :
    ∃ s', ConsoleInner.csiDispatch s [[1]] [] false 'J' = some s' ∧
      ConsoleInner.SameConsole s s' ∧ ConsoleInner.SameGeo s s' ∧
      ∀ r c, r < s.buf.height →
        s'.buf.read r c =
          if (r < s.cursor.row ∧ c < s.buf.width) ∨
              (r = s.cursor.row ∧ c < s.cursor.col) then
            some s.temp.bgOnly
          else s.buf.read r c := by
  have hred : ConsoleInner.csiDispatch s [[1]] [] false 'J' =
      s.clearScreen ClearMode.Above := rfl
  obtain ⟨s1, hfold1, hsc1, hgeo1, hwf1, hread1⟩ :=
    ConsoleInner.rowsFill s.temp.bgOnly s.cursor.row 0 s hwf hh (by omega)
  obtain ⟨s', hfold2, hsc2, hgeo2, hwf', hcell2⟩ :=
    ConsoleInner.rowFillFixed s.cursor.row s.temp.bgOnly s.cursor.col 0 s1
      hwf1 (by
        have := hgeo1.2.1
        omega) (by
        have := hgeo1.1
        omega)
  refine ⟨s', ?_, hsc1.chain hsc2, hgeo1.chainGeo hgeo2, ?_⟩
  · rw [hred]
    simp only [ConsoleInner.clearScreen]
    rw [show List.range s.cursor.row = List.range' 0 s.cursor.row from
      List.range_eq_range' _]
    rw [hfold1, Option.some_bind]
    rw [show List.range s.cursor.col = List.range' 0 s.cursor.col from
      List.range_eq_range' _]
    exact hfold2
  · intro r c hr
    have hgeo : ConsoleInner.SameGeo s s' := hgeo1.chainGeo hgeo2
    show s'.buf.cellAt (s'.buf.realRow r) c = _
    rw [hgeo.realRow_eq r, hcell2 _ c]
    have hrr1 : s1.buf.realRow s.cursor.row = s.buf.realRow s.cursor.row :=
      hgeo1.realRow_eq s.cursor.row
    rw [hrr1]
    have hs1read : s1.buf.cellAt (s.buf.realRow r) c = s1.buf.read r c := by
      show _ = s1.buf.cellAt (s1.buf.realRow r) c
      rw [hgeo1.realRow_eq r]
    by_cases hcase : s.buf.realRow r = s.buf.realRow s.cursor.row ∧
        0 ≤ c ∧ c < 0 + s.cursor.col
    · have hreq : r = s.cursor.row :=
        TextBufferCache.realRow_inj hr hrow hcase.1
      rw [if_pos hcase, if_pos (Or.inr ⟨hreq, by omega⟩)]
    · rw [if_neg hcase, hs1read, hread1 r c hr]
      by_cases h1 : 0 ≤ r ∧ r < 0 + s.cursor.row ∧ c < s.buf.width
      · rw [if_pos h1, if_pos (Or.inl ⟨by omega, h1.2.2⟩)]
      · rw [if_neg h1]
        rw [if_neg ?hno]
        case hno =>
          intro hor
          rcases hor with ⟨hlt, hcw⟩ | ⟨heq, hcc⟩
          · exact h1 ⟨by omega, by omega, hcw⟩
          · exact hcase ⟨by rw [heq], by omega, by omega⟩

/-- C7, witness at a concrete console. -/
theorem ed_above_spec_witness :
    (0 < (mkConsole 2 1).inner.buf.height ∧
        (mkConsole 2 1).inner.cursor.row < (mkConsole 2 1).inner.buf.height ∧
        (mkConsole 2 1).inner.cursor.col ≤ (mkConsole 2 1).inner.buf.width) ∧
      ∃ s', ConsoleInner.csiDispatch (mkConsole 2 1).inner [[1]] [] false 'J' =
          some s' ∧
        ConsoleInner.SameConsole (mkConsole 2 1).inner s' ∧
        ConsoleInner.SameGeo (mkConsole 2 1).inner s' ∧
        ∀ r c, r < (mkConsole 2 1).inner.buf.height →
          s'.buf.read r c =
            if (r < (mkConsole 2 1).inner.cursor.row ∧
                  c < (mkConsole 2 1).inner.buf.width) ∨
                (r = (mkConsole 2 1).inner.cursor.row ∧
                  c < (mkConsole 2 1).inner.cursor.col) then
              some (mkConsole 2 1).inner.temp.bgOnly
            else (mkConsole 2 1).inner.buf.read r c :=
  ⟨⟨by decide, by decide, by decide⟩,
    ed_above_spec (mkConsole 2 1).inner (TextBufferCache.create_WF 2 1)
      (by decide) (by decide) (by decide)⟩

/-- C10: a console fresh from on_text_buffer has cursor (0,0), saved
cursor (0,0), the default cell as style template, an empty report queue
(pop_report returns none), and auto-wrap enabled. -/
theorem fresh_console_initial_state (w h : Nat) :
    (mkConsole w h).inner.cursor = { row := 0, col := 0 } ∧
      (mkConsole w h).inner.savedCursor = { row := 0, col := 0 } ∧
      (mkConsole w h).inner.temp = Cell.default ∧
      (mkConsole w h).inner.report = [] ∧
      (popReport (mkConsole w h)).1 = none ∧
      (mkConsole w h).inner.autoWrap = true :=
  ⟨rfl, rfl, rfl, rfl, rfl, rfl⟩

end EmbeddedTerm
